import Mathlib

/-!
Verification of the ABNT citation-formatting engine of `src/citation_formatter.py`
(class `ABNTFomatter`): author normalization, in-text citation synthesis,
bibliography-entry assembly, and bibliography sorting.

The Python code is shallowly embedded: metadata dictionaries become a structure
of optional string fields (`none` models an absent key; Python truthiness of a
present value is emptiness of the string), and the Python string primitives
used by the code (`upper`, `split`, `replace`, `strip`, `join`, `in`,
`startswith`, `endswith`, slicing) are modelled by executable functions on
`List Char` below.
-/

namespace JurisCurador

/-! ### Python string primitives -/

/-- Model of Python `str.upper` for the characters that occur in this
development: ASCII letters plus the common Latin-1 letters of Portuguese
(Python's `upper` is full Unicode; the embedding covers the alphabet the
repository's data uses and is the identity elsewhere). -/
def pyCharUpper : Char → Char
  | 'a' => 'A' | 'b' => 'B' | 'c' => 'C' | 'd' => 'D' | 'e' => 'E' | 'f' => 'F'
  | 'g' => 'G' | 'h' => 'H' | 'i' => 'I' | 'j' => 'J' | 'k' => 'K' | 'l' => 'L'
  | 'm' => 'M' | 'n' => 'N' | 'o' => 'O' | 'p' => 'P' | 'q' => 'Q' | 'r' => 'R'
  | 's' => 'S' | 't' => 'T' | 'u' => 'U' | 'v' => 'V' | 'w' => 'W' | 'x' => 'X'
  | 'y' => 'Y' | 'z' => 'Z'
  | 'à' => 'À' | 'á' => 'Á' | 'â' => 'Â' | 'ã' => 'Ã' | 'ä' => 'Ä'
  | 'ç' => 'Ç' | 'è' => 'È' | 'é' => 'É' | 'ê' => 'Ê' | 'ë' => 'Ë'
  | 'ì' => 'Ì' | 'í' => 'Í' | 'î' => 'Î' | 'ï' => 'Ï' | 'ñ' => 'Ñ'
  | 'ò' => 'Ò' | 'ó' => 'Ó' | 'ô' => 'Ô' | 'õ' => 'Õ' | 'ö' => 'Ö'
  | 'ù' => 'Ù' | 'ú' => 'Ú' | 'û' => 'Û' | 'ü' => 'Ü'
  | c => c

/-- Python `s.upper()`. -/
def pyUpper (s : String) : String := ⟨s.data.map pyCharUpper⟩

/-- Python `s.split(" ")` (explicit single-space separator: adjacent
separators yield empty fields, `"".split(" ") == [""]`). -/
def splitOnSpaceAux (cur : List Char) : List Char → List (List Char)
  | [] => [cur.reverse]
  | c :: rest =>
    if c = ' ' then cur.reverse :: splitOnSpaceAux [] rest
    else splitOnSpaceAux (c :: cur) rest

def pySplitSpace (s : String) : List String :=
  (splitOnSpaceAux [] s.data).map fun l => ⟨l⟩

/-- Whitespace test used by Python `str.split()` and `str.strip()`
(for the character set relevant here). -/
def isPySpace (c : Char) : Bool :=
  c = ' ' || c = '\t' || c = '\n' || c = '\r'

/-- Python `s.split()` (no argument: split on whitespace runs, dropping
empty fields). -/
def wsTokensAux (cur : List Char) : List Char → List (List Char)
  | [] => if cur.isEmpty then [] else [cur.reverse]
  | c :: rest =>
    if isPySpace c then
      if cur.isEmpty then wsTokensAux [] rest
      else cur.reverse :: wsTokensAux [] rest
    else wsTokensAux (c :: cur) rest

def pySplitWs (s : String) : List String :=
  (wsTokensAux [] s.data).map fun l => ⟨l⟩

/-- Python `s.strip()`. -/
def pyStrip (s : String) : String :=
  ⟨((s.data.dropWhile isPySpace).reverse.dropWhile isPySpace).reverse⟩

/-- Python `sep.join(l)`. -/
def pyJoinSep (sep : String) : List String → String
  | [] => ""
  | [s] => s
  | s :: rest => s ++ sep ++ pyJoinSep sep rest

/-- Membership of a (nonempty) pattern as a contiguous run, as a Boolean:
the executable form of Python's `pat in s`. -/
def hasSub (pat : List Char) : List Char → Bool
  | [] => pat.isEmpty
  | c :: rest => pat.isPrefixOf (c :: rest) || hasSub pat rest

/-- Python `pat in s`. -/
def pyIn (pat s : String) : Bool := hasSub pat.data s.data

/-- `pat` occurs as a contiguous substring of `s` (the specification-side,
propositional reading of Python's `pat in s`). -/
def OccursIn (pat s : String) : Prop :=
  ∃ l r, s.data = l ++ pat.data ++ r

/-- Python `s.replace(old, new)` for a nonempty `old`: one left-to-right,
non-overlapping replacement pass.  Structured with an explicit fuel
argument (the length of the scanned list) so that it is structurally
recursive. -/
def pyReplaceAux (pat rep : List Char) : Nat → List Char → List Char
  | _, [] => []
  | 0, s => s
  | fuel + 1, c :: rest =>
    if pat.isPrefixOf (c :: rest) then
      rep ++ pyReplaceAux pat rep fuel (List.drop pat.length (c :: rest))
    else
      c :: pyReplaceAux pat rep fuel rest

def pyReplace (s pat rep : String) : String :=
  if pat.data.isEmpty then s
  else ⟨pyReplaceAux pat.data rep.data s.data.length s.data⟩

/-- Python `s.startswith(p)`. -/
def pyStartsWith (s p : String) : Bool := p.data.isPrefixOf s.data

/-- Python `s.endswith(p)`. -/
def pyEndsWith (s p : String) : Bool := p.data.isSuffixOf s.data

/-- Python `s[:n]`. -/
def pyTake (s : String) (n : Nat) : String := ⟨s.data.take n⟩

/-- Python `s[:-1]`. -/
def pyDropLastChar (s : String) : String := ⟨s.data.dropLast⟩

/-- Python `len(s)`. -/
def pyLen (s : String) : Nat := s.data.length

/-- Whether Python `int(s)` succeeds (optional surrounding whitespace,
optional sign, then a nonempty digit string; the exotic underscore
grouping rule is not used by the repository's data and is not modelled). -/
def pyIntOk (s : String) : Bool :=
  let t := pyStrip s
  let u := match t.data with
    | '+' :: rest => rest
    | '-' :: rest => rest
    | l => l
  !u.isEmpty && u.all Char.isDigit

/-- Python truthiness of an optional string field (absent key, `None`, and
`""` are all falsy). -/
def truthy : Option String → Bool
  | none => false
  | some s => !s.data.isEmpty

/-! ### Data model

An author dictionary (`{"firstName": ..., "lastName": ...}` or
`{"name": ...}`); the code reads each key with default `""`, so plain
strings with `""` for an absent key are a faithful model. -/

structure Author where
  lastName : String := ""
  firstName : String := ""
  name : String := ""
deriving DecidableEq, Repr, Inhabited

/-- An item-metadata dictionary.  `none` models an absent key. -/
structure Item where
  itemType : Option String := none
  authors : List Author := []
  title : Option String := none
  subtitle : Option String := none
  date : Option String := none
  publisher : Option String := none
  place : Option String := none
  publicationTitle : Option String := none
  journalPlace : Option String := none
  volume : Option String := none
  issue : Option String := none
  pages : Option String := none
  edition : Option String := none
  series : Option String := none
  seriesNumber : Option String := none
  url : Option String := none
  accessDate : Option String := none
  doi : Option String := none
  local_pdf_path : Option String := none
deriving DecidableEq, Repr, Inhabited

/-! ### `ABNTFomatter._format_authors_abnt` -/

/-- The surname/given-name resolution performed per author (lines 27-38 of
`citation_formatter.py`): if `lastName` is empty and `name` is nonempty,
split `name` on `" "`; a multi-token split takes the last token as the
surname and rejoins the rest as the given name. -/
def resolveAuthor (author : Author) : String × String :=
  if author.lastName.data.isEmpty && !author.name.data.isEmpty then
    let parts := pySplitSpace author.name
    if parts.length > 1 then
      (parts.getLastD "", pyJoinSep " " parts.dropLast)
    else
      (parts.headD "", "")
  else
    (author.lastName, author.firstName)

/-- The resolved surname of an author, if any (authors with no resolvable
surname are skipped). -/
def resolvedSurname (author : Author) : Option String :=
  let p := resolveAuthor author
  if p.1.data.isEmpty then none else some p.1

/-- The per-author rendered strings accumulated in `formatted_authors`
(lines 25-55). -/
def formattedAuthorsList (authors : List Author) (for_citation : Bool) : List String :=
  authors.filterMap fun author =>
    let p := resolveAuthor author
    let last_name := p.1
    let first_name := p.2
    if last_name.data.isEmpty then none
    else
      let last_name_upper := pyUpper last_name
      if for_citation then some last_name_upper
      else if !first_name.data.isEmpty then
        if pyLen first_name = 1 || (pyLen first_name = 2 && pyEndsWith first_name ".") then
          some (last_name_upper ++ ", " ++ pyReplace (pyUpper first_name) "." "" ++ ".")
        else
          some (last_name_upper ++ ", " ++ first_name ++ ".")
      else
        some (last_name_upper ++ ".")

/-- `_format_authors_abnt` (lines 13-72). -/
def format_authors_abnt (authors : List Author) (for_citation : Bool) : String :=
  if authors.isEmpty then ""
  else
    let fa := formattedAuthorsList authors for_citation
    if fa.isEmpty then ""
    else if for_citation then
      match fa with
      | [] => ""
      | [a] => a
      | [a, b] => a ++ "; " ++ b
      | a :: _ :: _ :: _ => a ++ " et al."
    else
      pyJoinSep "; " fa

/-! ### `_get_year_from_date` -/

/-- `_get_year_from_date` (lines 75-81): the first four characters of the
date string when they are all digits. -/
def get_year_from_date : Option String → Option String
  | none => none
  | some ds =>
    if ds.data.isEmpty then none
    else if 4 ≤ pyLen ds && (pyTake ds 4).data.all Char.isDigit then
      some (pyTake ds 4)
    else none

/-! ### `format_in_text_citation` -/

/-- The author string after the fallback chain of `format_in_text_citation`
(lines 102-116): citation-mode authors; if empty, first three uppercased
title words for an authorless webpage (with `"..."` when truncated),
else the uppercased publisher when `authors` is empty. -/
def citFallbackAuthor (item : Item) : String :=
  let author_str := format_authors_abnt item.authors true
  if author_str.data.isEmpty then
    if item.itemType = some "webpage" && truthy item.title then
      let title_words := pySplitWs (pyUpper (item.title.getD ""))
      let a := pyJoinSep " " (title_words.take 3)
      if title_words.length > 3 then a ++ "..." else a
    else if truthy item.publisher && item.authors.isEmpty then
      pyUpper (item.publisher.getD "")
    else author_str
  else author_str

/-- `format_in_text_citation` (lines 83-132). -/
def format_in_text_citation (item : Item) (page : Option String) : String :=
  let year := get_year_from_date item.date
  let author_str := citFallbackAuthor item
  let year_str := year.getD "s.d."
  if author_str.data.isEmpty && year.isNone then "[s.n.]"
  else
    let citation_parts :=
      (if !author_str.data.isEmpty then [author_str] else [])
      ++ [year_str]
      ++ (if truthy page then ["p. " ++ page.getD ""] else [])
    "(" ++ pyJoinSep ", " citation_parts ++ ")"

/-! ### `format_bibliography_entry`

The Python function appends segments to a single `parts` list; only the
year step reads the list built so far, so the list decomposes into
concatenated segment functions around `yearStep`. -/

/-- Entry-point selection (lines 139-169): the initial `parts` plus the
`entry_start_is_title` flag. -/
def entryParts (item : Item) : List String × Bool :=
  let author_str := format_authors_abnt item.authors false
  if !author_str.data.isEmpty then ([author_str], false)
  else if truthy item.publisher && item.authors.isEmpty then
    ([pyUpper (item.publisher.getD "") ++ "."], false)
  else if item.itemType = some "webpage" && truthy item.title then
    ([pyUpper (item.title.getD "") ++ "."], true)
  else if truthy item.title then
    ([pyUpper (item.title.getD "") ++ "."], true)
  else (["[S.A.]"], false)

/-- Title segment (lines 173-185), skipped when the title was the entry
point. -/
def titleParts (item : Item) (entry_start_is_title : Bool) : List String :=
  if entry_start_is_title then []
  else
    let title0 := item.title.getD "[S.T.]"
    let subtitle := item.subtitle.getD ""
    let title := if !subtitle.data.isEmpty then title0 ++ ": " ++ subtitle else title0
    let item_type := item.itemType.getD "document"
    if item_type = "journalArticle" then [title ++ "."]
    else if item_type = "book" then ["**" ++ title ++ "**."]
    else [title ++ "."]

/-- Journal-specific segments (lines 188-206). -/
def journalParts (item : Item) : List String :=
  if item.itemType = some "journalArticle" then
    ["**" ++ item.publicationTitle.getD "[S.J.]" ++ "**"]
    ++ (if truthy item.journalPlace then [item.journalPlace.getD "" ++ ","] else [])
    ++ (if truthy item.volume then ["v. " ++ item.volume.getD "" ++ ","] else [])
    ++ (if truthy item.issue then ["n. " ++ item.issue.getD "" ++ ","] else [])
    ++ (if truthy item.pages then
          let pages := item.pages.getD ""
          let pages :=
            if !pyStartsWith pages "p." && !pyStartsWith pages "f." then "p. " ++ pages
            else pages
          [pages ++ ","]
        else [])
  else []

/-- Edition segment (lines 218-224). -/
def editionParts (item : Item) : List String :=
  if truthy item.edition && item.itemType = some "book" then
    let edition := item.edition.getD ""
    if pyIntOk edition then [edition ++ ". ed."] else [edition ++ "."]
  else []

/-- Publication-place segment (lines 227-230). -/
def placeParts (item : Item) (entry_start_is_title : Bool) : List String :=
  if (item.itemType = some "book" || item.itemType = some "report")
      && (!entry_start_is_title || !item.authors.isEmpty) then
    [item.place.getD "[S.l.]" ++ ":"]
  else []

/-- Publisher segment (lines 233-236). -/
def pubParts (item : Item) (entry_start_is_title : Bool) : List String :=
  if (item.itemType = some "book" || item.itemType = some "report")
      && (!entry_start_is_title || !item.authors.isEmpty) then
    [item.publisher.getD "[s.n.]" ++ ","]
  else []

/-- Python `parts[-2:]`. -/
def lastTwo (l : List String) : List String := l.drop (l.length - 2)

/-- The year step (lines 238-247): append `year ++ "."` unless the year
string already occurs in one of the last two parts; when skipped, a
trailing comma on the last part becomes a period. -/
def yearStep (parts : List String) (year : String) : List String :=
  if (lastTwo parts).any (fun p => pyIn year p) then
    if pyEndsWith (parts.getLastD "") "," then
      parts.dropLast ++ [pyDropLastChar (parts.getLastD "") ++ "."]
    else parts
  else parts ++ [year ++ "."]

/-- Series segment (lines 251-257). -/
def seriesParts (item : Item) : List String :=
  if truthy item.series then
    let series_info :=
      item.series.getD ""
      ++ (if truthy item.seriesNumber then ", " ++ item.seriesNumber.getD "" else "")
    ["(" ++ series_info ++ ")."]
  else []

/-- URL and access-date segments (lines 261-269). -/
def urlParts (item : Item) : List String :=
  if truthy item.url then
    ["Disponível em: <" ++ item.url.getD "" ++ ">."]
    ++ (if !(item.accessDate.getD "").data.isEmpty then
          ["Acesso em: " ++ item.accessDate.getD "" ++ "."]
        else ["Acesso em: [informar data de acesso]."])
  else []

/-- DOI segment (lines 273-277). -/
def doiParts (item : Item) : List String :=
  if truthy item.doi then
    if truthy item.url && pyIn (item.doi.getD "") (item.url.getD "") then []
    else ["DOI: " ++ item.doi.getD "" ++ "."]
  else []

/-- Local-download segment (lines 280-282). -/
def downloadParts (item : Item) (include_download_link : Bool) : List String :=
  if include_download_link && truthy item.local_pdf_path then
    ["[Download Local: " ++ item.local_pdf_path.getD "" ++ "]"]
  else []

/-- All parts assembled before the year step. -/
def preYearParts (item : Item) : List String :=
  (entryParts item).1
  ++ titleParts item (entryParts item).2
  ++ journalParts item
  ++ editionParts item
  ++ placeParts item (entryParts item).2
  ++ pubParts item (entryParts item).2

/-- All parts assembled after the year step. -/
def postYearParts (item : Item) (include_download_link : Bool) : List String :=
  seriesParts item ++ urlParts item ++ doiParts item ++ downloadParts item include_download_link

/-- The full `parts` list of `format_bibliography_entry`. -/
def bibliographyParts (item : Item) (include_download_link : Bool) : List String :=
  yearStep (preYearParts item) ((get_year_from_date item.date).getD "s.d.")
  ++ postYearParts item include_download_link

/-- The final join-and-normalize pass of `format_bibliography_entry`
(lines 284-295). -/
def normalizeEntry (parts : List String) : String :=
  let s0 := pyStrip (pyJoinSep " " (parts.filter fun p => !p.data.isEmpty))
  let s1 := pyReplace s0 " ," ","
  let s2 := pyReplace s1 " ." "."
  let s3 := pyReplace s2 " :" ":"
  let s4 := pyReplace s3 ",." "."
  let s5 := pyReplace s4 ".." "."
  let s6 := pyReplace s5 ":," ":"
  let s7 := pyReplace s6 ";," ";"
  let s8 := pyReplace s7 "  " " "
  let s9 :=
    if !(pyEndsWith s8 "." || pyEndsWith s8 "]" || pyEndsWith s8 ")"
         || pyEndsWith s8 "?" || pyEndsWith s8 "!") then
      s8 ++ "."
    else s8
  let s10 :=
    if pyEndsWith s9 "]." || pyEndsWith s9 ")." then pyDropLastChar s9 else s9
  pyStrip s10

/-- `format_bibliography_entry` (lines 135-295). -/
def format_bibliography_entry (item : Item) (include_download_link : Bool) : String :=
  normalizeEntry (bibliographyParts item include_download_link)

/-! ### `generate_bibliography` -/

/-- The sort key of `generate_bibliography.sort_key` (lines 305-322). -/
def sort_key (item : Item) : String × String × String :=
  let year_val := (get_year_from_date (some (item.date.getD "0000"))).getD "0000"
  let entry_point :=
    if !item.authors.isEmpty then
      let first_author := item.authors.headD default
      let last_name := pyUpper first_author.lastName
      let last_name :=
        if last_name.data.isEmpty && !first_author.name.data.isEmpty then
          let name_parts := pySplitWs first_author.name
          if !name_parts.isEmpty then pyUpper (name_parts.getLastD "") else ""
        else last_name
      if !last_name.data.isEmpty then last_name else "[S.A.]"
    else if truthy item.publisher && item.authors.isEmpty then
      pyUpper (item.publisher.getD "")
    else if truthy item.title then
      pyUpper (item.title.getD "")
    else "[S.A.]"
  (entry_point, year_val, pyUpper (item.title.getD ""))

/-- Lexicographic (left-to-right) comparison of character lists by code
point: Python string `<=`. -/
def charsLe : List Char → List Char → Bool
  | [], _ => true
  | _ :: _, [] => false
  | a :: as, b :: bs => if a = b then charsLe as bs else decide (a < b)

/-- Python tuple `<=` on sort keys: lexicographic, ties broken
left-to-right. -/
def keyLe (k l : String × String × String) : Bool :=
  if k.1 = l.1 then
    if k.2.1 = l.2.1 then charsLe k.2.2.data l.2.2.data
    else charsLe k.2.1.data l.2.1.data
  else charsLe k.1.data l.1.data

/-- The comparison relation `sorted(items, key=sort_key)` sorts by. -/
def itemLe (a b : Item) : Prop := keyLe (sort_key a) (sort_key b) = true

instance : DecidableRel itemLe := fun _ _ => instDecidableEqBool _ _

/-- Python's stable `sorted(items, key=sort_key)`, modelled by stable
insertion sort with the ≤ relation on keys. -/
def sortedByKey (items : List Item) : List Item :=
  List.insertionSort itemLe items

/-- `generate_bibliography` (lines 298-335). -/
def generate_bibliography (items : List Item) (include_download_links : Bool) : String :=
  if items.isEmpty then ""
  else
    pyJoinSep "\n\n"
      ((sortedByKey items).map fun item =>
        format_bibliography_entry item include_download_links)

/-! ### Specification-side definitions

These re-state, in the claims' own vocabulary, what the entry point of a
bibliography entry should be; they are compared against the code-derived
definitions above. -/

/-- The claimed entry-point priority: non-empty author string; else
uppercased publisher (publisher present, authors empty); else uppercased
title; else the sentinel. -/
def claimedEntryPoint (item : Item) : String :=
  let a := format_authors_abnt item.authors false
  if a ≠ "" then a
  else if truthy item.publisher = true ∧ item.authors = [] then
    pyUpper (item.publisher.getD "") ++ "."
  else if truthy item.title = true then
    pyUpper (item.title.getD "") ++ "."
  else "[S.A.]"

/-- `pat` occurs contiguously in the character list `l`. -/
def occursL (pat l : List Char) : Prop :=
  ∃ p q, l = p ++ pat ++ q

/-! ### Concrete items used by witnesses and counterexamples -/

/-- Scenario A of the specification. -/
def itemScenarioA : Item :=
  { authors := [{ lastName := "Silva", firstName := "João" }],
    date := some "2020-03-01" }

/-- Scenario D of the specification. -/
def itemScenarioD : Item :=
  { itemType := some "webpage",
    title := some "Guia Completo de Python para Análise de Dados" }

/-- Scenario F of the specification: SILVA, 2019. -/
def itemSilva2019 : Item :=
  { authors := [{ lastName := "Silva", firstName := "João" }],
    date := some "2019" }

/-- Scenario F of the specification: SILVA, 2020. -/
def itemSilva2020 : Item :=
  { authors := [{ lastName := "Silva", firstName := "João" }],
    date := some "2020" }

/-- An item whose first author has neither `lastName` nor `name`, while the
second author is fully resolvable. -/
def itemHeadlessAuthor : Item :=
  { authors := [{ }, { lastName := "Costa", firstName := "Ana" }],
    title := some "Z" }

/-- A webpage item with a title and no author (title entry point). -/
def itemTitleEntry : Item :=
  { itemType := some "webpage", title := some "Z", date := some "1999" }

/-- A journal item whose issue number contains the publication year, so
the year step's duplicate check fires. -/
def itemYearInIssue : Item :=
  { itemType := some "journalArticle",
    authors := [{ lastName := "Silva" }],
    title := some "T", issue := some "2020", date := some "2020" }

/-- An item whose title ends in two periods: the repeated-period
normalization leaves a `".."` residue (counterexample input). -/
def itemDotDotTitle : Item :=
  { title := some "A.." }

/-- A fully clean book item (witness input for the amended punctuation
invariant). -/
def itemCleanBook : Item :=
  { itemType := some "book",
    authors := [{ lastName := "Silva", firstName := "João" }],
    title := some "Manual de Direito Civil",
    place := some "São Paulo", publisher := some "Atlas",
    date := some "2020" }

/-! ### Basic bridging lemmas -/

theorem strDataAppend (a b : String) : (a ++ b).data = a.data ++ b.data := by
  cases a; cases b; rfl

theorem strExt {a b : String} (h : a.data = b.data) : a = b := by
  cases a; cases b; exact congrArg String.mk h

theorem strEmpty_iff (s : String) : s.data.isEmpty = true ↔ s = "" := by
  cases s with
  | mk l =>
    cases l with
    | nil => simp
    | cons c t =>
      simp only [List.isEmpty_cons]
      constructor
      · intro h; exact absurd h (by simp)
      · intro h; exact absurd (congrArg String.data h) (by simp)

theorem isPrefixOf_eq_true_iff (pat l : List Char) :
    pat.isPrefixOf l = true ↔ ∃ r, l = pat ++ r := by
  induction pat generalizing l with
  | nil => simp [List.isPrefixOf]
  | cons a as ih =>
    cases l with
    | nil => simp [List.isPrefixOf]
    | cons b bs =>
      simp only [List.isPrefixOf, Bool.and_eq_true, beq_iff_eq, ih, List.cons_append]
      constructor
      · rintro ⟨rfl, r, rfl⟩; exact ⟨r, rfl⟩
      · rintro ⟨r, hr⟩
        rw [List.cons.injEq] at hr
        exact ⟨hr.1.symm, r, hr.2⟩

theorem hasSub_eq_true_iff (pat l : List Char) : hasSub pat l = true ↔ occursL pat l := by
  induction l with
  | nil =>
    simp only [hasSub, occursL, List.isEmpty_iff]
    constructor
    · rintro rfl; exact ⟨[], [], rfl⟩
    · rintro ⟨p, q, h⟩
      rcases List.append_eq_nil.mp h.symm with ⟨h1, h2⟩
      exact (List.append_eq_nil.mp h1).2
  | cons c t ih =>
    simp only [hasSub, Bool.or_eq_true, isPrefixOf_eq_true_iff, ih, occursL]
    constructor
    · rintro (⟨r, hr⟩ | ⟨p, q, hpq⟩)
      · exact ⟨[], r, by simpa using hr⟩
      · exact ⟨c :: p, q, by simp [hpq]⟩
    · rintro ⟨p, q, hpq⟩
      cases p with
      | nil => exact Or.inl ⟨q, by simpa using hpq⟩
      | cons x xs =>
        right
        rw [List.cons_append, List.cons_append, List.cons.injEq] at hpq
        exact ⟨xs, q, hpq.2⟩

theorem pyIn_eq_true_iff (pat s : String) : pyIn pat s = true ↔ OccursIn pat s :=
  hasSub_eq_true_iff pat.data s.data

instance (pat s : String) : Decidable (OccursIn pat s) :=
  decidable_of_iff _ (pyIn_eq_true_iff pat s)

instance (pat l : List Char) : Decidable (occursL pat l) :=
  decidable_of_iff _ (hasSub_eq_true_iff pat l)

/-- A parenthesized string is never the `"[s.n.]"` sentinel. -/
theorem paren_ne_sentinel (mid : String) : ("(" ++ mid ++ ")") ≠ "[s.n.]" := by
  intro h
  have h2 := congrArg String.data h
  rw [strDataAppend, strDataAppend] at h2
  rw [show ("(" : String).data = ['('] from rfl,
      show ("[s.n.]" : String).data = ['[', 's', '.', 'n', '.', ']'] from rfl] at h2
  rw [List.cons_append] at h2
  exact absurd (List.head_eq_of_cons_eq h2) (by decide)

/-! ### Claim theorems -/

/-- C8 counterexample: for Scenario D's item (no authors, webpage, title
"Guia Completo de Python para Análise de Dados"), the fallback
pseudo-author computed by `format_in_text_citation` is NOT the claimed
"GUIA COMPLETO DE PYTHON..." — the code joins only the first three words. -/
theorem c8_counterexample :
    citFallbackAuthor itemScenarioD = "GUIA COMPLETO DE..."
    ∧ citFallbackAuthor itemScenarioD ≠ "GUIA COMPLETO DE PYTHON..." := by
  constructor
  · decide
  · decide

/-- C8 (amended): for Scenario D's item the pseudo-author is
"GUIA COMPLETO DE..." — the first three words of the uppercased title
followed by "...", and the resulting in-text citation is
"(GUIA COMPLETO DE..., s.d.)". -/
theorem c8_amended_pseudo_author :
    citFallbackAuthor itemScenarioD = "GUIA COMPLETO DE..."
    ∧ format_in_text_citation itemScenarioD none = "(GUIA COMPLETO DE..., s.d.)" := by
  constructor
  · decide
  · decide

/-- C9: every in-text citation is either exactly the sentinel `"[s.n.]"`
or is wrapped in parentheses (begins with `"("` and ends with `")"`). -/
theorem c9_citation_shape (item : Item) (page : Option String) :
    format_in_text_citation item page = "[s.n.]"
    ∨ ∃ mid, format_in_text_citation item page = "(" ++ mid ++ ")" := by
  unfold format_in_text_citation
  by_cases h : ((citFallbackAuthor item).data.isEmpty
      && (get_year_from_date item.date).isNone) = true
  · left; simp only [h, if_true]
  · right
    rw [if_neg h]
    exact ⟨_, rfl⟩

/-- C4: `format_in_text_citation` returns the sentinel `"[s.n.]"` exactly
when the post-fallback author string is empty and no 4-digit year is
extractable; in particular the all-empty item yields `"[s.n.]"`. -/
theorem c4_sentinel_iff (item : Item) (page : Option String) :
    (format_in_text_citation item page = "[s.n.]" ↔
      (citFallbackAuthor item = "" ∧ get_year_from_date item.date = none))
    ∧ format_in_text_citation {} none = "[s.n.]" := by
  constructor
  · unfold format_in_text_citation
    by_cases h : ((citFallbackAuthor item).data.isEmpty
        && (get_year_from_date item.date).isNone) = true
    · rw [if_pos h]
      rcases Bool.and_eq_true .. |>.mp h with ⟨h1, h2⟩
      simp only [true_iff]
      exact ⟨(strEmpty_iff _).mp h1, Option.isNone_iff_eq_none.mp h2⟩
    · rw [if_neg h]
      constructor
      · intro hq; exact absurd hq (paren_ne_sentinel _)
      · rintro ⟨h1, h2⟩
        exact absurd (by simp [h1, h2]) h
  · decide

/-- C10: the bibliography sort key inspects only the first author: if the
first author has neither a `lastName` nor a `name`, the entry point is
`"[S.A.]"`, even though `format_bibliography_entry` can still lead with a
later author's surname (shown on `itemHeadlessAuthor`). -/
theorem c10_sortkey_first_author (item : Item) (a0 : Author) (rest : List Author) :
    (item.authors = a0 :: rest → a0.lastName = "" → a0.name = "" →
      (sort_key item).1 = "[S.A.]")
    ∧ ((sort_key itemHeadlessAuthor).1 = "[S.A.]"
       ∧ (bibliographyParts itemHeadlessAuthor true).head? = some "COSTA, Ana.") := by
  constructor
  · intro h h1 h2
    simp [sort_key, h, h1, h2, pyUpper]
  · constructor
    · decide
    · decide

/-- Witness for C4 at a concrete input: the all-defaults item. -/
theorem c4_witness : format_in_text_citation {} none = "[s.n.]" :=
  (c4_sentinel_iff {} none).2

/-- Witness for C10 at a concrete input. -/
theorem c10_witness : (sort_key itemHeadlessAuthor).1 = "[S.A.]" :=
  (c10_sortkey_first_author itemHeadlessAuthor { }
    [{ lastName := "Costa", firstName := "Ana" }]).1 rfl rfl rfl

/-- The citation-mode author list is exactly the uppercased resolved
surnames. -/
theorem formattedAuthorsList_citation (authors : List Author) :
    formattedAuthorsList authors true
      = (authors.filterMap resolvedSurname).map pyUpper := by
  rw [List.map_filterMap]
  unfold formattedAuthorsList
  apply List.filterMap_congr
  intro a _
  unfold resolvedSurname
  by_cases h : (resolveAuthor a).1.data.isEmpty
  · simp [h]
  · simp [h]

/-- C2: citation-mode author collapsing: with one resolvable surname the
result is that surname uppercased; with two, `"S1; S2"`; with three or
more, `"S1 et al."` keeping only the first surname. -/
theorem c2_citation_author_collapsing (authors : List Author)
    (s t u : String) (rest : List String) :
    (authors.filterMap resolvedSurname = [s] →
      format_authors_abnt authors true = pyUpper s)
    ∧ (authors.filterMap resolvedSurname = [s, t] →
      format_authors_abnt authors true = pyUpper s ++ "; " ++ pyUpper t)
    ∧ (authors.filterMap resolvedSurname = s :: t :: u :: rest →
      format_authors_abnt authors true = pyUpper s ++ " et al.") := by
  have hlist := formattedAuthorsList_citation authors
  refine ⟨?_, ?_, ?_⟩ <;> intro h
  all_goals cases authors with
  | nil => simp at h
  | cons a as =>
    unfold format_authors_abnt
    rw [hlist, h]
    simp

/-- Witness for C2: one, two and three resolvable surnames at concrete
inputs. -/
theorem c2_witness :
    format_authors_abnt [{ lastName := "Silva" }] true = pyUpper "Silva"
    ∧ format_authors_abnt [{ lastName := "Costa" }, { lastName := "Santos" }] true
        = pyUpper "Costa" ++ "; " ++ pyUpper "Santos"
    ∧ format_authors_abnt
        [{ lastName := "Oliveira" }, { lastName := "Almeida" }, { lastName := "Pereira" }] true
        = pyUpper "Oliveira" ++ " et al." :=
  ⟨(c2_citation_author_collapsing [{ lastName := "Silva" }] "Silva" "" "" []).1 (by decide),
   (c2_citation_author_collapsing [{ lastName := "Costa" }, { lastName := "Santos" }]
      "Costa" "Santos" "" []).2.1 (by decide),
   (c2_citation_author_collapsing
      [{ lastName := "Oliveira" }, { lastName := "Almeida" }, { lastName := "Pereira" }]
      "Oliveira" "Almeida" "Pereira" []).2.2 (by decide)⟩

/-- C7: the in-text citation is assembled from the author string (only if
non-empty), the year string (`"s.d."` when no year is extractable), and
`"p. <page>"` when a page is given, joined with `", "` and parenthesized;
Scenario A produces `"(SILVA, 2020, p. 15)"`. -/
theorem c7_citation_assembly (item : Item) (page : Option String) :
    (¬(citFallbackAuthor item = "" ∧ get_year_from_date item.date = none) →
      format_in_text_citation item page =
        "(" ++ pyJoinSep ", "
          ((if citFallbackAuthor item = "" then [] else [citFallbackAuthor item])
            ++ [(get_year_from_date item.date).getD "s.d."]
            ++ (if truthy page then ["p. " ++ page.getD ""] else [])) ++ ")")
    ∧ format_in_text_citation itemScenarioA (some "15") = "(SILVA, 2020, p. 15)" := by
  constructor
  · intro h
    unfold format_in_text_citation
    have hcond : ((citFallbackAuthor item).data.isEmpty
        && (get_year_from_date item.date).isNone) ≠ true := by
      intro hb
      simp only [Bool.and_eq_true] at hb
      exact h ⟨(strEmpty_iff _).mp hb.1, Option.isNone_iff_eq_none.mp hb.2⟩
    rw [if_neg hcond]
    by_cases ha : citFallbackAuthor item = ""
    · simp [ha]
    · have hne : (citFallbackAuthor item).data.isEmpty = false := by
        cases hb : (citFallbackAuthor item).data.isEmpty
        · rfl
        · exact absurd ((strEmpty_iff _).mp hb) ha
      simp [ha, hne]
  · decide

/-- Witness for C7: the general assembly applied at Scenario A. -/
theorem c7_witness :
    format_in_text_citation itemScenarioA (some "15") =
      "(" ++ pyJoinSep ", "
        ((if citFallbackAuthor itemScenarioA = "" then [] else [citFallbackAuthor itemScenarioA])
          ++ [(get_year_from_date itemScenarioA.date).getD "s.d."]
          ++ (if truthy (some "15") then ["p. " ++ (some "15" : Option String).getD ""] else []))
      ++ ")" :=
  (c7_citation_assembly itemScenarioA (some "15")).1 (by decide)

/-! ### Structure of the bibliography entry: entry point and year step -/

theorem pyEndsWith_single_iff (s : String) (c : Char) :
    pyEndsWith s ⟨[c]⟩ = true ↔ s.data.getLast? = some c := by
  show ([c].isSuffixOf s.data) = true ↔ _
  unfold List.isSuffixOf
  rw [isPrefixOf_eq_true_iff]
  constructor
  · rintro ⟨r, hr⟩
    have h2 := List.head?_reverse s.data
    rw [hr] at h2
    simpa using h2.symm
  · intro hl
    have h2 : s.data.reverse.head? = some c := by rw [List.head?_reverse]; exact hl
    cases hrev : s.data.reverse with
    | nil => rw [hrev] at h2; simp at h2
    | cons x xs =>
      rw [hrev] at h2
      simp only [List.head?_cons, Option.some.injEq] at h2
      exact ⟨xs, by simp [h2]⟩

theorem pyEndsWith_single_false (s : String) (c d : Char) (hne : c ≠ d)
    (h : s.data.getLast? = some c) : pyEndsWith s ⟨[d]⟩ = false := by
  cases hb : pyEndsWith s ⟨[d]⟩
  · rfl
  · rw [(pyEndsWith_single_iff s d).mp hb] at h
    exact absurd (Option.some.injEq .. ▸ congrArg id h) (by simpa using hne.symm)

theorem concat_getLast_dot (s : String) : (s ++ ".").data.getLast? = some '.' := by
  rw [strDataAppend]
  exact List.getLast?_concat _

/-- Every bibliography-mode author item ends in a period. -/
theorem formattedAuthorsList_bib_last (authors : List Author) :
    ∀ x ∈ formattedAuthorsList authors false, x.data.getLast? = some '.' := by
  intro x hx
  unfold formattedAuthorsList at hx
  rcases List.mem_filterMap.mp hx with ⟨a, _, ha⟩
  by_cases h1 : (resolveAuthor a).1.data.isEmpty
  · simp [h1] at ha
  · simp only [h1, Bool.false_eq_true, if_false] at ha
    by_cases h2 : (resolveAuthor a).2.data.isEmpty
    · simp only [h2, Bool.not_true, Bool.false_eq_true, if_false] at ha
      rw [← Option.some.inj ha]; exact concat_getLast_dot _
    · simp only [h2, Bool.not_false, if_true] at ha
      by_cases h3 : (pyLen (resolveAuthor a).2 = 1
          || (pyLen (resolveAuthor a).2 = 2 && pyEndsWith (resolveAuthor a).2 ".")) = true
      · rw [if_pos h3] at ha; rw [← Option.some.inj ha]; exact concat_getLast_dot _
      · rw [if_neg h3] at ha; rw [← Option.some.inj ha]; exact concat_getLast_dot _

/-- The last character of a nonempty separator-join whose elements all end
in `c` is `c`. -/
theorem pyJoinSep_getLast (sep : String) (c : Char) :
    ∀ (l : List String), l ≠ [] → (∀ x ∈ l, x.data.getLast? = some c) →
      (pyJoinSep sep l).data.getLast? = some c
  | [], h, _ => absurd rfl h
  | [s], _, hall => hall s (by simp)
  | s :: t :: u, _, hall => by
    show ((s ++ sep) ++ pyJoinSep sep (t :: u)).data.getLast? = some c
    have ih := pyJoinSep_getLast sep c (t :: u) (by simp) fun x hx => hall x (by simp [hx])
    rw [strDataAppend]
    have hne : (pyJoinSep sep (t :: u)).data ≠ [] := by
      intro hz; rw [hz] at ih; simp at ih
    rw [List.getLast?_append_of_ne_nil _ hne]
    exact ih

/-- A nonempty bibliography author string ends in a period. -/
theorem format_authors_bib_last (authors : List Author)
    (h : format_authors_abnt authors false ≠ "") :
    (format_authors_abnt authors false).data.getLast? = some '.' := by
  unfold format_authors_abnt at h ⊢
  by_cases h0 : authors.isEmpty
  · simp [h0] at h
  · simp only [h0, Bool.false_eq_true, if_false] at h ⊢
    by_cases h1 : (formattedAuthorsList authors false).isEmpty
    · simp [h1] at h
    · simp only [h1, Bool.false_eq_true, if_false] at h ⊢
      exact pyJoinSep_getLast "; " '.' _
        (by intro hz; rw [hz] at h1; simp at h1)
        (formattedAuthorsList_bib_last authors)

/-- The entry step always yields a single leading part, which never ends
in a comma. -/
theorem entryParts_shape (item : Item) :
    ∃ e flag, entryParts item = ([e], flag) ∧ pyEndsWith e "," = false := by
  unfold entryParts
  by_cases b1 : (!(format_authors_abnt item.authors false).data.isEmpty) = true
  · refine ⟨format_authors_abnt item.authors false, false, by rw [if_pos b1], ?_⟩
    apply pyEndsWith_single_false _ '.' ',' (by decide)
    apply format_authors_bib_last
    intro hz
    rw [hz] at b1
    simp at b1
  · rw [if_neg b1]
    by_cases b2 : (truthy item.publisher && item.authors.isEmpty) = true
    · exact ⟨_, _, by rw [if_pos b2],
        pyEndsWith_single_false _ '.' ',' (by decide) (concat_getLast_dot _)⟩
    · rw [if_neg b2]
      by_cases b3 : (decide (item.itemType = some "webpage") && truthy item.title) = true
      · exact ⟨_, _, by rw [if_pos b3],
          pyEndsWith_single_false _ '.' ',' (by decide) (concat_getLast_dot _)⟩
      · rw [if_neg b3]
        by_cases b4 : truthy item.title = true
        · exact ⟨_, _, by rw [if_pos b4],
            pyEndsWith_single_false _ '.' ',' (by decide) (concat_getLast_dot _)⟩
        · exact ⟨_, _, by rw [if_neg b4], by decide⟩

theorem yearStep_ne_nil (parts : List String) (y : String) (h : parts ≠ []) :
    yearStep parts y ≠ [] := by
  unfold yearStep
  by_cases hany : ((lastTwo parts).any fun p => pyIn y p) = true
  · rw [if_pos hany]
    by_cases hend : pyEndsWith (parts.getLastD "") "," = true
    · rw [if_pos hend]; simp
    · rw [if_neg hend]; exact h
  · rw [if_neg hany]; simp

theorem yearStep_head? (parts : List String) (y : String) (h : parts ≠ [])
    (h1 : ∀ p, parts = [p] → pyEndsWith p "," = false) :
    (yearStep parts y).head? = parts.head? := by
  unfold yearStep
  by_cases hany : ((lastTwo parts).any fun p => pyIn y p) = true
  · rw [if_pos hany]
    by_cases hend : pyEndsWith (parts.getLastD "") "," = true
    · rw [if_pos hend]
      cases parts with
      | nil => exact absurd rfl h
      | cons a t =>
        cases t with
        | nil =>
          have hd : [a].getLastD "" = a := by simp
          rw [hd, h1 a rfl] at hend
          exact absurd hend (by simp)
        | cons b u =>
          have hd : (a :: b :: u).dropLast = a :: (b :: u).dropLast := rfl
          rw [hd]
          rfl
    · rw [if_neg hend]
  · rw [if_neg hany]
    cases parts with
    | nil => exact absurd rfl h
    | cons a t => rfl

theorem head?_append_left {α : Type} (l l' : List α) (h : l ≠ []) :
    (l ++ l').head? = l.head? := by
  cases l with
  | nil => exact absurd rfl h
  | cons a t => rfl

/-- The first part of a bibliography entry is the entry point chosen by
`entryParts`. -/
theorem bibliographyParts_head (item : Item) (inc : Bool) :
    (bibliographyParts item inc).head? = ((entryParts item).1).head? := by
  rcases entryParts_shape item with ⟨e, flag, hef, hcomma⟩
  unfold bibliographyParts
  have hpre_ne : preYearParts item ≠ [] := by
    unfold preYearParts
    rw [hef]
    simp
  rw [head?_append_left _ _ (yearStep_ne_nil _ _ hpre_ne)]
  have hsingle : ∀ p, preYearParts item = [p] → pyEndsWith p "," = false := by
    intro p hp
    unfold preYearParts at hp
    rw [hef] at hp
    simp only [List.cons_append, List.nil_append, List.cons.injEq] at hp
    rw [← hp.1]
    exact hcomma
  rw [yearStep_head? _ _ hpre_ne hsingle]
  unfold preYearParts
  rw [hef]
  simp

theorem listEmpty_iff {α : Type} (l : List α) : l.isEmpty = true ↔ l = [] := by
  cases l <;> simp

/-- C1: the entry point of a bibliography entry follows the exact priority
author string → uppercased publisher (authors empty) → uppercased title →
`"[S.A.]"`; and when the title is the entry point, the parts list contains
no further title segment. -/
theorem c1_entry_point_priority (item : Item) (inc : Bool) :
    (bibliographyParts item inc).head? = some (claimedEntryPoint item)
    ∧ (format_authors_abnt item.authors false = "" →
       ¬(truthy item.publisher = true ∧ item.authors = []) →
       truthy item.title = true →
       bibliographyParts item inc
         = yearStep ((pyUpper (item.title.getD "") ++ ".")
             :: (journalParts item ++ editionParts item
                 ++ placeParts item true ++ pubParts item true))
             ((get_year_from_date item.date).getD "s.d.")
           ++ postYearParts item inc) := by
  constructor
  · rw [bibliographyParts_head]
    unfold entryParts claimedEntryPoint
    by_cases b1 : (!(format_authors_abnt item.authors false).data.isEmpty) = true
    · rw [if_pos b1]
      have ha : format_authors_abnt item.authors false ≠ "" := by
        intro hz; rw [hz] at b1; simp at b1
      rw [if_pos ha]
      rfl
    · rw [if_neg b1]
      have ha : format_authors_abnt item.authors false = "" := by
        apply (strEmpty_iff _).mp
        cases hb : (format_authors_abnt item.authors false).data.isEmpty
        · exact absurd (by simp [hb]) b1
        · rfl
      rw [if_neg (show ¬(format_authors_abnt item.authors false ≠ "") by simp [ha])]
      by_cases b2 : (truthy item.publisher && item.authors.isEmpty) = true
      · rw [if_pos b2]
        have hp : truthy item.publisher = true ∧ item.authors = [] := by
          simp only [Bool.and_eq_true] at b2
          exact ⟨b2.1, (listEmpty_iff _).mp b2.2⟩
        rw [if_pos hp]
        rfl
      · rw [if_neg b2]
        have hp : ¬(truthy item.publisher = true ∧ item.authors = []) := by
          rintro ⟨hp1, hp2⟩
          exact b2 (by simp [hp1, hp2])
        rw [if_neg hp]
        by_cases b3 : (decide (item.itemType = some "webpage") && truthy item.title) = true
        · rw [if_pos b3]
          have ht : truthy item.title = true := by
            simp only [Bool.and_eq_true] at b3
            exact b3.2
          rw [if_pos ht]
          rfl
        · rw [if_neg b3]
          by_cases b4 : truthy item.title = true
          · rw [if_pos b4, if_pos b4]
            rfl
          · rw [if_neg b4, if_neg b4]
            rfl
  · intro h1 h2 h3
    have hb1 : ¬((!(format_authors_abnt item.authors false).data.isEmpty) = true) := by
      simp [h1]
    have hb2 : ¬((truthy item.publisher && item.authors.isEmpty) = true) := by
      intro hb
      simp only [Bool.and_eq_true] at hb
      exact h2 ⟨hb.1, (listEmpty_iff _).mp hb.2⟩
    have hE : entryParts item = ([pyUpper (item.title.getD "") ++ "."], true) := by
      unfold entryParts
      rw [if_neg hb1, if_neg hb2]
      by_cases b3 : (decide (item.itemType = some "webpage") && truthy item.title) = true
      · rw [if_pos b3]
      · rw [if_neg b3, if_pos h3]
    unfold bibliographyParts preYearParts
    rw [hE]
    simp [titleParts, List.append_assoc]

/-- Witness for C1: the head-priority fact and the title-entry
decomposition at a concrete authorless webpage item. -/
theorem c1_witness :
    (bibliographyParts itemTitleEntry true).head? = some (claimedEntryPoint itemTitleEntry)
    ∧ bibliographyParts itemTitleEntry true
        = yearStep ((pyUpper (itemTitleEntry.title.getD "") ++ ".")
            :: (journalParts itemTitleEntry ++ editionParts itemTitleEntry
                ++ placeParts itemTitleEntry true ++ pubParts itemTitleEntry true))
            ((get_year_from_date itemTitleEntry.date).getD "s.d.")
          ++ postYearParts itemTitleEntry true :=
  ⟨(c1_entry_point_priority itemTitleEntry true).1,
   (c1_entry_point_priority itemTitleEntry true).2 (by decide) (by decide) (by decide)⟩

/-- C6: the year segment is appended as its own part (`year ++ "."`)
unless the year string already occurs as a substring of one of the last
two previously assembled parts; when skipped, a trailing comma on the
last part becomes a period. -/
theorem c6_year_dedup (item : Item) (inc : Bool) :
    ((∀ p ∈ lastTwo (preYearParts item),
        ¬ OccursIn ((get_year_from_date item.date).getD "s.d.") p) →
      bibliographyParts item inc
        = preYearParts item ++ [(get_year_from_date item.date).getD "s.d." ++ "."]
          ++ postYearParts item inc)
    ∧ ((∃ p ∈ lastTwo (preYearParts item),
          OccursIn ((get_year_from_date item.date).getD "s.d.") p) →
        (pyEndsWith ((preYearParts item).getLastD "") "," = true →
          bibliographyParts item inc
            = (preYearParts item).dropLast
              ++ [pyDropLastChar ((preYearParts item).getLastD "") ++ "."]
              ++ postYearParts item inc)
        ∧ (pyEndsWith ((preYearParts item).getLastD "") "," = false →
          bibliographyParts item inc
            = preYearParts item ++ postYearParts item inc)) := by
  have hbridge : ((lastTwo (preYearParts item)).any
        fun p => pyIn ((get_year_from_date item.date).getD "s.d.") p) = true
      ↔ ∃ p ∈ lastTwo (preYearParts item),
          OccursIn ((get_year_from_date item.date).getD "s.d.") p := by
    rw [List.any_eq_true]
    constructor
    · rintro ⟨p, hp, hin⟩; exact ⟨p, hp, (pyIn_eq_true_iff _ _).mp hin⟩
    · rintro ⟨p, hp, hin⟩; exact ⟨p, hp, (pyIn_eq_true_iff _ _).mpr hin⟩
  constructor
  · intro hall
    have hno : ¬(((lastTwo (preYearParts item)).any
        fun p => pyIn ((get_year_from_date item.date).getD "s.d.") p) = true) := by
      intro hb
      rcases hbridge.mp hb with ⟨p, hp, ho⟩
      exact hall p hp ho
    unfold bibliographyParts yearStep
    rw [if_neg hno]
  · intro hex
    constructor <;> intro hend
    · unfold bibliographyParts yearStep
      rw [if_pos (hbridge.mpr hex), if_pos hend]
    · unfold bibliographyParts yearStep
      rw [if_pos (hbridge.mpr hex),
        if_neg (show ¬(pyEndsWith ((preYearParts item).getLastD "") "," = true) by
          rw [hend]; simp)]

/-- Witness for C6: the skip-and-fix branch at an item whose issue number
contains the year, and the append branch at a plain dated item. -/
theorem c6_witness :
    bibliographyParts itemYearInIssue true
      = (preYearParts itemYearInIssue).dropLast
        ++ [pyDropLastChar ((preYearParts itemYearInIssue).getLastD "") ++ "."]
        ++ postYearParts itemYearInIssue true
    ∧ bibliographyParts itemSilva2019 true
      = preYearParts itemSilva2019
        ++ [(get_year_from_date itemSilva2019.date).getD "s.d." ++ "."]
        ++ postYearParts itemSilva2019 true :=
  ⟨((c6_year_dedup itemYearInIssue true).2 (by decide)).1 (by decide),
   (c6_year_dedup itemSilva2019 true).1 (by decide)⟩

/-! ### The sort-key comparison is a total preorder -/

theorem charsLe_total : ∀ (l m : List Char), charsLe l m = true ∨ charsLe m l = true
  | [], _ => Or.inl rfl
  | _ :: _, [] => Or.inr rfl
  | a :: as, b :: bs => by
    by_cases hab : a = b
    · subst hab
      rcases charsLe_total as bs with h | h
      · left; simpa [charsLe] using h
      · right; simpa [charsLe] using h
    · have hba : ¬(b = a) := fun h => hab h.symm
      simp only [charsLe, if_neg hab, if_neg hba, decide_eq_true_eq]
      exact lt_or_gt_of_ne hab

theorem charsLe_trans : ∀ (l m n : List Char),
    charsLe l m = true → charsLe m n = true → charsLe l n = true
  | [], _, _, _, _ => rfl
  | _ :: _, [], _, h, _ => by simp [charsLe] at h
  | _ :: _, _ :: _, [], _, h2 => by simp [charsLe] at h2
  | a :: as, b :: bs, c :: cs, h1, h2 => by
    by_cases hab : a = b <;> by_cases hbc : b = c
    · subst hab; subst hbc
      simp only [charsLe, if_pos rfl] at h1 h2 ⊢
      exact charsLe_trans as bs cs h1 h2
    · subst hab
      simp only [charsLe, if_neg hbc] at h2 ⊢
      exact h2
    · subst hbc
      simp only [charsLe, if_neg hab] at h1 ⊢
      exact h1
    · simp only [charsLe, if_neg hab, decide_eq_true_eq] at h1
      simp only [charsLe, if_neg hbc, decide_eq_true_eq] at h2
      have hac : a < c := lt_trans h1 h2
      simp only [charsLe, if_neg (ne_of_lt hac), decide_eq_true_eq]
      exact hac

theorem charsLe_antisymm : ∀ (l m : List Char),
    charsLe l m = true → charsLe m l = true → l = m
  | [], [], _, _ => rfl
  | [], _ :: _, _, h2 => by simp [charsLe] at h2
  | _ :: _, [], h1, _ => by simp [charsLe] at h1
  | a :: as, b :: bs, h1, h2 => by
    by_cases hab : a = b
    · subst hab
      simp only [charsLe, if_pos rfl] at h1 h2
      rw [charsLe_antisymm as bs h1 h2]
    · have hba : ¬(b = a) := fun h => hab h.symm
      simp only [charsLe, if_neg hab, decide_eq_true_eq] at h1
      simp only [charsLe, if_neg hba, decide_eq_true_eq] at h2
      exact absurd (lt_trans h1 h2) (lt_irrefl a)

theorem strLe_antisymm (s t : String) (h1 : charsLe s.data t.data = true)
    (h2 : charsLe t.data s.data = true) : s = t :=
  strExt (charsLe_antisymm _ _ h1 h2)

theorem keyLe_total (k l : String × String × String) :
    keyLe k l = true ∨ keyLe l k = true := by
  unfold keyLe
  by_cases h1 : k.1 = l.1
  · rw [if_pos h1, if_pos h1.symm]
    by_cases h2 : k.2.1 = l.2.1
    · rw [if_pos h2, if_pos h2.symm]; exact charsLe_total _ _
    · rw [if_neg h2, if_neg (fun h => h2 h.symm)]; exact charsLe_total _ _
  · rw [if_neg h1, if_neg (fun h => h1 h.symm)]; exact charsLe_total _ _

theorem keyLe_trans (k l m : String × String × String)
    (h1 : keyLe k l = true) (h2 : keyLe l m = true) : keyLe k m = true := by
  unfold keyLe at h1 h2 ⊢
  by_cases a1 : k.1 = l.1 <;> by_cases a2 : l.1 = m.1
  · rw [if_pos a1] at h1
    rw [if_pos a2] at h2
    rw [if_pos (a1.trans a2)]
    by_cases b1 : k.2.1 = l.2.1 <;> by_cases b2 : l.2.1 = m.2.1
    · rw [if_pos b1] at h1
      rw [if_pos b2] at h2
      rw [if_pos (b1.trans b2)]
      exact charsLe_trans _ _ _ h1 h2
    · rw [if_pos b1] at h1
      rw [if_neg b2] at h2
      rw [if_neg (fun h => b2 (b1.symm.trans h)), b1]
      exact h2
    · rw [if_neg b1] at h1
      rw [if_neg (fun h => b1 (h.trans b2.symm)), ← b2]
      exact h1
    · rw [if_neg b1] at h1
      rw [if_neg b2] at h2
      by_cases hkm : k.2.1 = m.2.1
      · exfalso
        rw [← hkm] at h2
        exact b1 (strLe_antisymm _ _ h1 h2)
      · rw [if_neg hkm]
        exact charsLe_trans _ _ _ h1 h2
  · rw [if_pos a1] at h1
    rw [if_neg a2] at h2
    rw [if_neg (fun h => a2 (a1.symm.trans h)), a1]
    exact h2
  · rw [if_neg a1] at h1
    rw [if_neg (fun h => a1 (h.trans a2.symm)), ← a2]
    exact h1
  · rw [if_neg a1] at h1
    rw [if_neg a2] at h2
    by_cases hkm : k.1 = m.1
    · exfalso
      rw [← hkm] at h2
      exact a1 (strLe_antisymm _ _ h1 h2)
    · rw [if_neg hkm]
      exact charsLe_trans _ _ _ h1 h2

instance : IsTotal Item itemLe :=
  ⟨fun a b => keyLe_total (sort_key a) (sort_key b)⟩

instance : IsTrans Item itemLe :=
  ⟨fun _ _ _ h1 h2 => keyLe_trans _ _ _ h1 h2⟩

/-- C3: the empty bibliography is the empty string; otherwise the output
is the stably key-sorted entries joined by exactly one blank line; the
secondary key defaults to `"0000"` for undated items; and the SILVA
2019/2020 pair comes out 2019-first. -/
theorem c3_bibliography_order (items : List Item) (inc : Bool) :
    generate_bibliography [] inc = ""
    ∧ generate_bibliography items inc
        = pyJoinSep "\n\n" ((sortedByKey items).map fun i => format_bibliography_entry i inc)
    ∧ List.Sorted itemLe (sortedByKey items)
    ∧ (sortedByKey items).Perm items
    ∧ (∀ it : Item, get_year_from_date (some (it.date.getD "0000")) = none →
        (sort_key it).2.1 = "0000")
    ∧ generate_bibliography [itemSilva2020, itemSilva2019] true
        = format_bibliography_entry itemSilva2019 true ++ "\n\n"
          ++ format_bibliography_entry itemSilva2020 true := by
  refine ⟨rfl, ?_, ?_, ?_, ?_, ?_⟩
  · cases items <;> rfl
  · exact List.sorted_insertionSort itemLe items
  · exact List.perm_insertionSort itemLe items
  · intro it h
    simp [sort_key, h]
  · decide

/-- Witness for C3's year-defaulting conjunct at a concrete item whose
date yields no 4-digit year. -/
theorem c3_witness : (sort_key { date := some "n.d." }).2.1 = "0000" :=
  (c3_bibliography_order [] true).2.2.2.2.1 { date := some "n.d." } (by decide)

/-! ### The punctuation invariant (C5)

The claimed invariant is false in general (a title ending in two periods
leaves a `".."` residue, because Python's `replace` is a single
non-overlapping pass).  Below it is proved for items whose present string
fields are "clean": nonempty, free of `'.'`, `','`, `':'`, `';'`, with no
two consecutive spaces and no leading or trailing space (author `name`
fields additionally space-free), and whose date yields a 4-digit year. -/

/-- C5 counterexample: on the item with title `"A.."` the entry is
`"A.. s.d."`, which contains the substring `".."` (the single
left-to-right `".."→"."` pass leaves a residue of the run `"...."`). -/
theorem c5_counterexample :
    format_bibliography_entry itemDotDotTitle true = "A.. s.d."
    ∧ OccursIn ".." (format_bibliography_entry itemDotDotTitle true) := by
  constructor
  · decide
  · decide

/-- Adjacent character pairs that the normalization pass removes, plus the
pairs needed to keep the set closed under the year step's comma-to-period
fix (`".,"` and `",,"`): none of them may occur in a clean entry. -/
def badPairs : List (Char × Char) :=
  [(' ', ','), (' ', '.'), (' ', ':'), (',', '.'), ('.', '.'),
   (':', ','), (';', ','), (' ', ' '), ('.', ','), (',', ',')]

/-- No forbidden adjacent pair occurs in `l`. -/
def NoBadL (l : List Char) : Prop := ∀ pr ∈ badPairs, ¬ occursL [pr.1, pr.2] l

/-- Characters that may not begin a part (they would form a forbidden pair
with the joining space). -/
def badStart : List Char := [',', '.', ':', ' ']

/-- The characters stripped by Python `strip()`, as a list. -/
def pySpaceL : List Char := [' ', '\t', '\n', '\r']

/-- A well-formed part of a bibliography entry. -/
def GoodPart (p : String) : Prop :=
  p.data ≠ [] ∧ NoBadL p.data ∧ (∀ c ∈ badStart, p.data.head? ≠ some c)
  ∧ (∀ c ∈ pySpaceL, p.data.getLast? ≠ some c)

/-- A well-formed fragment that further punctuation may be appended to:
like `GoodPart`, but its last character is no punctuation either. -/
def GoodCore (t : String) : Prop :=
  t.data ≠ [] ∧ NoBadL t.data ∧ (∀ c ∈ badStart, t.data.head? ≠ some c)
  ∧ (∀ c ∈ ([' ', ',', '.', ':', ';', '\t', '\n', '\r'] : List Char),
      t.data.getLast? ≠ some c)

/-- Characters allowed in clean field values. -/
def cleanChar (c : Char) : Bool :=
  !(c = '.' || c = ',' || c = ':' || c = ';' || c = '\t' || c = '\n' || c = '\r')

/-- A clean string-field value. -/
def CleanStr (s : String) : Prop :=
  s.data ≠ [] ∧ (∀ c ∈ s.data, cleanChar c = true) ∧ ¬ occursL [' ', ' '] s.data
  ∧ s.data.head? ≠ some ' ' ∧ s.data.getLast? ≠ some ' '

/-- A clean optional field: absent, or clean. -/
def CleanOpt : Option String → Prop
  | none => True
  | some s => CleanStr s

instance (l : List Char) : Decidable (NoBadL l) := by
  unfold NoBadL; infer_instance

instance (p : String) : Decidable (GoodPart p) := by
  unfold GoodPart; infer_instance

instance (t : String) : Decidable (GoodCore t) := by
  unfold GoodCore; infer_instance

instance (s : String) : Decidable (CleanStr s) := by
  unfold CleanStr; infer_instance

instance : (o : Option String) → Decidable (CleanOpt o)
  | none => isTrue trivial
  | some s => inferInstanceAs (Decidable (CleanStr s))

/-- A clean author record. -/
def CleanAuthor (a : Author) : Prop :=
  (a.lastName = "" ∨ CleanStr a.lastName)
  ∧ (a.firstName = "" ∨ CleanStr a.firstName)
  ∧ (a.name = "" ∨ (CleanStr a.name ∧ ' ' ∉ a.name.data))

instance (a : Author) : Decidable (CleanAuthor a) := by
  unfold CleanAuthor; infer_instance

/-- A clean item: every present string field is clean and the date yields
a 4-digit year. -/
def CleanItem (item : Item) : Prop :=
  CleanOpt item.title ∧ CleanOpt item.subtitle ∧ CleanOpt item.publisher
  ∧ CleanOpt item.place ∧ CleanOpt item.publicationTitle ∧ CleanOpt item.journalPlace
  ∧ CleanOpt item.volume ∧ CleanOpt item.issue ∧ CleanOpt item.pages
  ∧ CleanOpt item.edition ∧ CleanOpt item.series ∧ CleanOpt item.seriesNumber
  ∧ CleanOpt item.url ∧ CleanOpt item.accessDate ∧ CleanOpt item.doi
  ∧ CleanOpt item.local_pdf_path
  ∧ (∀ a ∈ item.authors, CleanAuthor a)
  ∧ (get_year_from_date item.date).isSome = true

instance (it : Item) : Decidable (CleanItem it) := by
  unfold CleanItem; infer_instance

/-! ### Occurrence calculus for two-character patterns -/

theorem occursL_nil_iff (pat : List Char) : occursL pat [] ↔ pat = [] := by
  constructor
  · rintro ⟨p, q, h⟩
    rcases List.append_eq_nil.mp h.symm with ⟨h1, h2⟩
    exact (List.append_eq_nil.mp h1).2
  · rintro rfl
    exact ⟨[], [], rfl⟩

theorem occursL_cons_iff (pat : List Char) (c : Char) (t : List Char) :
    occursL pat (c :: t) ↔ (∃ r, c :: t = pat ++ r) ∨ occursL pat t := by
  rw [← hasSub_eq_true_iff, ← hasSub_eq_true_iff]
  show (pat.isPrefixOf (c :: t) || hasSub pat t) = true ↔ _
  rw [Bool.or_eq_true, isPrefixOf_eq_true_iff]

theorem occurs2_cons_iff (a b c : Char) (t : List Char) :
    occursL [a, b] (c :: t) ↔ (c = a ∧ t.head? = some b) ∨ occursL [a, b] t := by
  rw [occursL_cons_iff]
  constructor
  · rintro (⟨r, hr⟩ | h)
    · rw [List.cons_append, List.cons_append, List.nil_append, List.cons.injEq] at hr
      exact Or.inl ⟨hr.1, by rw [hr.2]; rfl⟩
    · exact Or.inr h
  · rintro (⟨rfl, hh⟩ | h)
    · left
      cases t with
      | nil => simp at hh
      | cons d u =>
        simp only [List.head?_cons, Option.some.injEq] at hh
        exact ⟨u, by rw [hh]; rfl⟩
    · exact Or.inr h

theorem occurs2_len (a b : Char) (l : List Char) (h : occursL [a, b] l) :
    2 ≤ l.length := by
  rcases h with ⟨p, q, rfl⟩
  simp
  omega

theorem occurs2_nil (a b : Char) : ¬ occursL [a, b] [] := by
  intro h
  have := occurs2_len a b [] h
  simp at this

theorem occurs2_single (a b c : Char) : ¬ occursL [a, b] [c] := by
  intro h
  have := occurs2_len a b [c] h
  simp at this

theorem occurs2_mem (a b : Char) (l : List Char) (h : occursL [a, b] l) :
    a ∈ l ∧ b ∈ l := by
  rcases h with ⟨p, q, rfl⟩
  simp

theorem occursL_single_iff (c : Char) (l : List Char) : occursL [c] l ↔ c ∈ l := by
  constructor
  · rintro ⟨p, q, rfl⟩
    simp
  · intro h
    rcases List.append_of_mem h with ⟨p, q, rfl⟩
    exact ⟨p, q, by simp⟩

theorem occursL_append_left (pat x y : List Char) (h : occursL pat x) :
    occursL pat (x ++ y) := by
  rcases h with ⟨p, q, rfl⟩
  exact ⟨p, q ++ y, by simp⟩

theorem occursL_append_right (pat x y : List Char) (h : occursL pat y) :
    occursL pat (x ++ y) := by
  rcases h with ⟨p, q, rfl⟩
  exact ⟨x ++ p, q, by simp⟩

theorem occurs2_append (a b : Char) (x y : List Char) :
    occursL [a, b] (x ++ y) ↔ occursL [a, b] x ∨ occursL [a, b] y
      ∨ (x.getLast? = some a ∧ y.head? = some b) := by
  induction x with
  | nil =>
    simp only [List.nil_append, List.getLast?_nil]
    constructor
    · intro h; exact Or.inr (Or.inl h)
    · rintro (h | h | ⟨h, _⟩)
      · exact absurd h (occurs2_nil a b)
      · exact h
      · simp at h
  | cons c x' ih =>
    rw [List.cons_append, occurs2_cons_iff, ih, occurs2_cons_iff]
    cases x' with
    | nil =>
      constructor
      · rintro (⟨h1, h2⟩ | h | h | ⟨h1, h2⟩)
        · exact Or.inr (Or.inr ⟨by simp [h1], by simpa using h2⟩)
        · exact absurd h (occurs2_nil a b)
        · exact Or.inr (Or.inl h)
        · simp at h1
      · rintro ((⟨h1, h2⟩ | h) | h | ⟨h1, h2⟩)
        · simp at h2
        · exact absurd h (occurs2_nil a b)
        · exact Or.inr (Or.inr (Or.inl h))
        · exact Or.inl ⟨by simpa using h1, by simpa using h2⟩
    | cons d x'' =>
      simp only [List.cons_append, List.head?_cons, List.getLast?_cons_cons]
      tauto

/-! ### Clean strings make good parts -/

theorem mem_of_head?_eq {α : Type} {l : List α} {c : α} (h : l.head? = some c) : c ∈ l := by
  cases l with
  | nil => simp at h
  | cons a t =>
    simp only [List.head?_cons, Option.some.injEq] at h
    subst h
    exact List.mem_cons_self a t

theorem mem_of_getLast?_eq {α : Type} : ∀ {l : List α} {c : α}, l.getLast? = some c → c ∈ l
  | [], _, h => by simp at h
  | [a], c, h => by
    simp only [List.getLast?_singleton, Option.some.injEq] at h
    subst h
    simp
  | _ :: b :: t, _, h => by
    rw [List.getLast?_cons_cons] at h
    exact List.mem_cons_of_mem _ (mem_of_getLast?_eq h)

theorem cleanStr_goodCore (s : String) (h : CleanStr s) : GoodCore s := by
  obtain ⟨hne, hchars, hss, hhead, hlast⟩ := h
  refine ⟨hne, ?_, ?_, ?_⟩
  · intro pr hpr hocc
    rcases occurs2_mem pr.1 pr.2 s.data hocc with ⟨_, hm2⟩
    simp only [badPairs, List.mem_cons, List.not_mem_nil, or_false] at hpr
    rcases hpr with h'|h'|h'|h'|h'|h'|h'|h'|h'|h' <;> subst h' <;>
      first
      | exact hss hocc
      | exact absurd (hchars _ hm2) (by decide)
  · intro c hc hh
    have hmem := mem_of_head?_eq hh
    simp only [badStart, List.mem_cons, List.not_mem_nil, or_false] at hc
    rcases hc with rfl|rfl|rfl|rfl <;>
      first
      | exact hhead hh
      | exact absurd (hchars _ hmem) (by decide)
  · intro c hc hl
    have hmem := mem_of_getLast?_eq hl
    simp only [List.mem_cons, List.not_mem_nil, or_false] at hc
    rcases hc with rfl|rfl|rfl|rfl|rfl|rfl|rfl|rfl <;>
      first
      | exact hlast hl
      | exact absurd (hchars _ hmem) (by decide)

theorem goodCore_goodPart (t : String) (h : GoodCore t) : GoodPart t := by
  refine ⟨h.1, h.2.1, h.2.2.1, ?_⟩
  intro c hc
  simp only [pySpaceL, List.mem_cons, List.not_mem_nil, or_false] at hc
  rcases hc with rfl|rfl|rfl|rfl <;> exact h.2.2.2 _ (by decide)

theorem boundary_fst (x y : List Char)
    (h : ∀ c, x.getLast? = some c → c ∉ ([' ', ',', '.', ':', ';'] : List Char)) :
    ∀ pr ∈ badPairs, ¬(x.getLast? = some pr.1 ∧ y.head? = some pr.2) := by
  rintro pr hpr ⟨h1, _⟩
  apply h pr.1 h1
  simp only [badPairs, List.mem_cons, List.not_mem_nil, or_false] at hpr
  rcases hpr with h'|h'|h'|h'|h'|h'|h'|h'|h'|h' <;> subst h' <;> decide

theorem boundary_snd (x y : List Char)
    (h : ∀ c, y.head? = some c → c ∉ badStart) :
    ∀ pr ∈ badPairs, ¬(x.getLast? = some pr.1 ∧ y.head? = some pr.2) := by
  rintro pr hpr ⟨_, h2⟩
  apply h pr.2 h2
  simp only [badPairs, List.mem_cons, List.not_mem_nil, or_false] at hpr
  rcases hpr with h'|h'|h'|h'|h'|h'|h'|h'|h'|h' <;> subst h' <;> decide

theorem noBad_append (x y : List Char) (hx : NoBadL x) (hy : NoBadL y)
    (hb : ∀ pr ∈ badPairs, ¬(x.getLast? = some pr.1 ∧ y.head? = some pr.2)) :
    NoBadL (x ++ y) := by
  intro pr hpr hocc
  rcases (occurs2_append pr.1 pr.2 x y).mp hocc with h | h | h
  · exact hx pr hpr h
  · exact hy pr hpr h
  · exact hb pr hpr h

theorem cleanStr_head_notin (s : String) (h : CleanStr s) :
    ∀ c, s.data.head? = some c → c ∉ badStart :=
  fun c hh hc => (cleanStr_goodCore s h).2.2.1 c hc hh

theorem goodCore_last_notin (t : String) (h : GoodCore t) :
    ∀ c, t.data.getLast? = some c → c ∉ ([' ', ',', '.', ':', ';'] : List Char) := by
  intro c hl hc
  simp only [List.mem_cons, List.not_mem_nil, or_false] at hc
  rcases hc with rfl|rfl|rfl|rfl|rfl <;> exact h.2.2.2 _ (by decide) hl

/-- Appending a constant that starts safely after a core fragment. -/
theorem goodPart_core_const (t k : String) (ht : GoodCore t) (hk1 : NoBadL k.data)
    (hk2 : k.data ≠ []) (hk4 : ∀ c ∈ pySpaceL, k.data.getLast? ≠ some c) :
    GoodPart (t ++ k) := by
  have hlast5 := goodCore_last_notin t ht
  obtain ⟨h1, h2, h3, _⟩ := ht
  refine ⟨?_, ?_, ?_, ?_⟩
  · rw [strDataAppend]; simp [h1]
  · rw [strDataAppend]
    exact noBad_append _ _ h2 hk1 (boundary_fst _ _ hlast5)
  · intro c hc
    rw [strDataAppend, head?_append_left _ _ h1]
    exact h3 c hc
  · intro c hc
    rw [strDataAppend, List.getLast?_append_of_ne_nil _ hk2]
    exact hk4 c hc

/-- Prefixing a core fragment with a constant that ends safely. -/
theorem goodCore_const_core (k t : String) (ht : GoodCore t) (hk1 : NoBadL k.data)
    (hk2 : k.data ≠ []) (hk3 : ∀ c ∈ badStart, k.data.head? ≠ some c)
    (hk5 : ∀ c, k.data.getLast? = some c → c ∉ ([' ', ',', '.', ':', ';'] : List Char)) :
    GoodCore (k ++ t) := by
  obtain ⟨h1, h2, _, h4⟩ := ht
  refine ⟨?_, ?_, ?_, ?_⟩
  · rw [strDataAppend]; simp [hk2]
  · rw [strDataAppend]
    exact noBad_append _ _ hk1 h2 (boundary_fst _ _ hk5)
  · intro c hc
    rw [strDataAppend, head?_append_left _ _ hk2]
    exact hk3 c hc
  · intro c hc
    rw [strDataAppend, List.getLast?_append_of_ne_nil _ h1]
    exact h4 c hc

/-- Prefixing a clean value with a constant label (the label may end in a
space: the clean value starts safely). -/
theorem goodCore_label (lbl s : String) (h1 : NoBadL lbl.data) (h2 : lbl.data ≠ [])
    (h3 : ∀ c ∈ badStart, lbl.data.head? ≠ some c) (hs : CleanStr s) :
    GoodCore (lbl ++ s) := by
  have hc := cleanStr_goodCore s hs
  obtain ⟨g1, g2, _, g4⟩ := hc
  refine ⟨?_, ?_, ?_, ?_⟩
  · rw [strDataAppend]; simp [h2]
  · rw [strDataAppend]
    exact noBad_append _ _ h1 g2 (boundary_snd _ _ (cleanStr_head_notin s hs))
  · intro c hc'
    rw [strDataAppend, head?_append_left _ _ h2]
    exact h3 c hc'
  · intro c hc'
    rw [strDataAppend, List.getLast?_append_of_ne_nil _ g1]
    exact g4 c hc'

/-- A core fragment, a separator constant, then a clean value (covers
`"Title: Subtitle"` and `"Series, Number"` and `"SURNAME, Given"`). -/
theorem goodCore_core_sep_clean (t sep u : String) (ht : GoodCore t) (hu : CleanStr u)
    (hsep1 : NoBadL sep.data) : GoodCore (t ++ sep ++ u) := by
  have hcu := cleanStr_goodCore u hu
  have hlast5 := goodCore_last_notin t ht
  obtain ⟨h1, h2, h3, _⟩ := ht
  obtain ⟨g1, g2, _, g4⟩ := hcu
  have hmid : NoBadL (t.data ++ sep.data) :=
    noBad_append _ _ h2 hsep1 (boundary_fst _ _ hlast5)
  have hmidne : t.data ++ sep.data ≠ [] := by simp [h1]
  refine ⟨?_, ?_, ?_, ?_⟩
  · rw [strDataAppend, strDataAppend]; simp [h1]
  · rw [strDataAppend, strDataAppend]
    exact noBad_append _ _ hmid g2 (boundary_snd _ _ (cleanStr_head_notin u hu))
  · intro c hc
    rw [strDataAppend, strDataAppend, head?_append_left _ _ hmidne,
      head?_append_left _ _ h1]
    exact h3 c hc
  · intro c hc
    rw [strDataAppend, strDataAppend, List.getLast?_append_of_ne_nil _ g1]
    exact g4 c hc

/-! ### `pyUpper` preserves cleanliness -/

theorem getLast?_map {α β : Type} (f : α → β) (l : List α) :
    (l.map f).getLast? = l.getLast?.map f := by
  rw [← List.head?_reverse, ← List.map_reverse, List.head?_map, List.head?_reverse]

theorem pyCharUpper_cleanChar (c : Char) (h : cleanChar c = true) :
    cleanChar (pyCharUpper c) = true := by
  unfold pyCharUpper
  split
  all_goals first | decide | exact h

theorem pyCharUpper_ne_space (c : Char) (h : c ≠ ' ') : pyCharUpper c ≠ ' ' := by
  unfold pyCharUpper
  split
  all_goals first | decide | exact h

theorem pyCharUpper_space_iff (c : Char) : pyCharUpper c = ' ' ↔ c = ' ' := by
  constructor
  · intro h
    by_contra hc
    exact pyCharUpper_ne_space c hc h
  · rintro rfl
    decide

theorem occurs2_map_space (l : List Char) (h : occursL [' ', ' '] (l.map pyCharUpper)) :
    occursL [' ', ' '] l := by
  induction l with
  | nil =>
    rw [List.map_nil, occursL_nil_iff] at h
    simp at h
  | cons c t ih =>
    rw [List.map_cons, occurs2_cons_iff] at h
    rcases h with ⟨h1, h2⟩ | h
    · rw [occurs2_cons_iff]
      left
      refine ⟨(pyCharUpper_space_iff c).mp h1, ?_⟩
      rw [List.head?_map] at h2
      cases ht : t.head? with
      | none => rw [ht] at h2; simp at h2
      | some d =>
        rw [ht] at h2
        simp only [Option.map_some', Option.some.injEq] at h2
        have hd : d = ' ' := (pyCharUpper_space_iff d).mp h2
        rw [hd]
    · exact (occurs2_cons_iff ..).mpr (Or.inr (ih h))

theorem pyUpper_clean (s : String) (h : CleanStr s) : CleanStr (pyUpper s) := by
  obtain ⟨h1, h2, h3, h4, h5⟩ := h
  refine ⟨?_, ?_, ?_, ?_, ?_⟩
  · show s.data.map pyCharUpper ≠ []
    simp [h1]
  · intro c hc
    rcases List.mem_map.mp hc with ⟨d, hd, rfl⟩
    exact pyCharUpper_cleanChar d (h2 d hd)
  · exact fun hocc => h3 (occurs2_map_space _ hocc)
  · intro hh
    rw [show (pyUpper s).data = s.data.map pyCharUpper from rfl, List.head?_map] at hh
    cases ht : s.data.head? with
    | none => rw [ht] at hh; simp at hh
    | some d =>
      rw [ht] at hh
      simp only [Option.map_some', Option.some.injEq] at hh
      exact h4 (by rw [ht, (pyCharUpper_space_iff d).mp hh])
  · intro hh
    rw [show (pyUpper s).data = s.data.map pyCharUpper from rfl, getLast?_map] at hh
    cases ht : s.data.getLast? with
    | none => rw [ht] at hh; simp at hh
    | some d =>
      rw [ht] at hh
      simp only [Option.map_some', Option.some.injEq] at hh
      exact h5 (by rw [ht, (pyCharUpper_space_iff d).mp hh])

/-! ### Field-level helper lemmas -/

theorem strEta (s : String) : (⟨s.data⟩ : String) = s := by cases s; rfl

theorem splitOnSpaceAux_no_space (cur : List Char) :
    ∀ (l : List Char), (∀ c ∈ l, c ≠ ' ') → splitOnSpaceAux cur l = [cur.reverse ++ l]
  | [], _ => by simp [splitOnSpaceAux]
  | c :: t, h => by
    rw [splitOnSpaceAux, if_neg (h c (by simp)),
      splitOnSpaceAux_no_space (c :: cur) t (fun d hd => h d (by simp [hd]))]
    simp

theorem pySplitSpace_no_space (s : String) (h : ' ' ∉ s.data) : pySplitSpace s = [s] := by
  unfold pySplitSpace
  rw [splitOnSpaceAux_no_space [] s.data (fun c hc he => h (he ▸ hc))]
  simp [strEta]

theorem isDigit_cleanChar (c : Char) (h : c.isDigit = true) :
    cleanChar c = true ∧ c ≠ ' ' := by
  have h1 : c ≠ '.' := fun hh => absurd (hh ▸ h) (by decide)
  have h2 : c ≠ ',' := fun hh => absurd (hh ▸ h) (by decide)
  have h3 : c ≠ ':' := fun hh => absurd (hh ▸ h) (by decide)
  have h4 : c ≠ ';' := fun hh => absurd (hh ▸ h) (by decide)
  have h5 : c ≠ ' ' := fun hh => absurd (hh ▸ h) (by decide)
  have h6 : c ≠ '\t' := fun hh => absurd (hh ▸ h) (by decide)
  have h7 : c ≠ '\n' := fun hh => absurd (hh ▸ h) (by decide)
  have h8 : c ≠ '\r' := fun hh => absurd (hh ▸ h) (by decide)
  refine ⟨?_, h5⟩
  simp [cleanChar, h1, h2, h3, h4, h6, h7, h8]

/-- An extracted 4-digit year is a clean string. -/
theorem year_clean (d : Option String) (y : String) (h : get_year_from_date d = some y) :
    CleanStr y := by
  cases d with
  | none => simp [get_year_from_date] at h
  | some ds =>
    simp only [get_year_from_date] at h
    by_cases he : ds.data.isEmpty
    · rw [if_pos he] at h; simp at h
    · rw [if_neg he] at h
      by_cases hd : (4 ≤ pyLen ds && (pyTake ds 4).data.all Char.isDigit) = true
      · rw [if_pos hd] at h
        have hy : y = pyTake ds 4 := (Option.some.inj h).symm
        simp only [Bool.and_eq_true, decide_eq_true_eq] at hd
        obtain ⟨hlen, hdig⟩ := hd
        subst hy
        have hlen' : 4 ≤ ds.data.length := hlen
        have hlen4 : (pyTake ds 4).data.length = 4 := by
          show (ds.data.take 4).length = 4
          rw [List.length_take]
          omega
        have hdig4 : ∀ c ∈ (pyTake ds 4).data, c.isDigit = true :=
          fun c hc => List.all_eq_true.mp hdig c hc
        refine ⟨?_, ?_, ?_, ?_, ?_⟩
        · intro hz; rw [hz] at hlen4; simp at hlen4
        · intro c hc; exact (isDigit_cleanChar c (hdig4 c hc)).1
        · intro hocc
          rcases occurs2_mem _ _ _ hocc with ⟨hm, _⟩
          exact (isDigit_cleanChar ' ' (hdig4 ' ' hm)).2 rfl
        · intro hh
          exact (isDigit_cleanChar ' ' (hdig4 ' ' (mem_of_head?_eq hh))).2 rfl
        · intro hh
          exact (isDigit_cleanChar ' ' (hdig4 ' ' (mem_of_getLast?_eq hh))).2 rfl
      · rw [if_neg hd] at h; simp at h

/-- A clean string contains no period, so it cannot start with `"p."` or
`"f."`. -/
theorem clean_not_startswith (s : String) (pfx : Char) (h : CleanStr s)
    (hb : pyStartsWith s ⟨[pfx, '.']⟩ = true) : False := by
  rcases (isPrefixOf_eq_true_iff _ _).mp hb with ⟨r, hr⟩
  have hdot : '.' ∈ s.data := by rw [hr]; simp
  exact absurd (h.2.1 '.' hdot) (by decide)

/-- The surname and given name resolved from a clean author are each empty
or clean. -/
theorem resolveAuthor_clean (a : Author) (hc : CleanAuthor a) :
    ((resolveAuthor a).1 = "" ∨ CleanStr (resolveAuthor a).1)
    ∧ ((resolveAuthor a).2 = "" ∨ CleanStr (resolveAuthor a).2) := by
  obtain ⟨hl, hf, hn⟩ := hc
  unfold resolveAuthor
  by_cases h1 : (a.lastName.data.isEmpty && !a.name.data.isEmpty) = true
  · rw [if_pos h1]
    simp only [Bool.and_eq_true, Bool.not_eq_true'] at h1
    have hname : a.name ≠ "" := by
      intro hz
      rw [hz] at h1
      simp at h1
    rcases hn with hz | ⟨hclean, hns⟩
    · exact absurd hz hname
    · rw [pySplitSpace_no_space a.name hns]
      have hgt : ¬([a.name].length > 1) := by simp
      rw [if_neg hgt]
      simp only [List.headD_cons]
      exact ⟨Or.inr hclean, by simp⟩
  · rw [if_neg h1]
    exact ⟨hl, hf⟩

/-! ### Joining good parts -/

theorem exists_getLast? {α : Type} : ∀ (l : List α), l ≠ [] → ∃ z, l.getLast? = some z
  | [], h => absurd rfl h
  | [a], _ => ⟨a, by simp⟩
  | a :: b :: t, _ => by
    rw [List.getLast?_cons_cons]
    exact exists_getLast? (b :: t) (by simp)

theorem sep_boundary_semicolon (x : List Char) :
    ∀ pr ∈ badPairs, ¬(x.getLast? = some pr.1 ∧ ("; " : String).data.head? = some pr.2) := by
  rintro pr hpr ⟨_, h2⟩
  simp only [badPairs, List.mem_cons, List.not_mem_nil, or_false] at hpr
  rcases hpr with h'|h'|h'|h'|h'|h'|h'|h'|h'|h' <;> subst h' <;> exact absurd h2 (by decide)

theorem sep_boundary_space (x : List Char) (hx : x.getLast? ≠ some ' ') :
    ∀ pr ∈ badPairs, ¬(x.getLast? = some pr.1 ∧ (" " : String).data.head? = some pr.2) := by
  rintro pr hpr ⟨h1, h2⟩
  simp only [badPairs, List.mem_cons, List.not_mem_nil, or_false] at hpr
  rcases hpr with h'|h'|h'|h'|h'|h'|h'|h'|h'|h' <;> subst h' <;>
    first
    | exact absurd h2 (by decide)
    | exact hx h1

theorem joinSep_good (sep : String) (hsep1 : NoBadL sep.data) (hsep2 : sep.data ≠ [])
    (hbound : ∀ (x : List Char), x.getLast? ≠ some ' ' →
      ∀ pr ∈ badPairs, ¬(x.getLast? = some pr.1 ∧ sep.data.head? = some pr.2)) :
    ∀ (l : List String), l ≠ [] → (∀ x ∈ l, GoodPart x) →
      NoBadL (pyJoinSep sep l).data
      ∧ (∀ z, l.head? = some z → (pyJoinSep sep l).data.head? = z.data.head?)
      ∧ (∀ z, l.getLast? = some z → (pyJoinSep sep l).data.getLast? = z.data.getLast?)
      ∧ (pyJoinSep sep l).data ≠ []
  | [], h, _ => absurd rfl h
  | [x], _, hall => by
    have hg := hall x (by simp)
    refine ⟨hg.2.1, ?_, ?_, hg.1⟩
    · intro z hz
      simp only [List.head?_cons, Option.some.injEq] at hz
      subst hz
      rfl
    · intro z hz
      simp only [List.getLast?_singleton, Option.some.injEq] at hz
      subst hz
      rfl
  | x :: y :: t, _, hall => by
    have hx := hall x (by simp)
    obtain ⟨ihBad, ihHead, ihLast, ihNe⟩ :=
      joinSep_good sep hsep1 hsep2 hbound (y :: t) (by simp)
        (fun z hz => hall z (List.mem_cons_of_mem x hz))
    have hy := hall y (by simp)
    have hmid : NoBadL (x.data ++ sep.data) :=
      noBad_append _ _ hx.2.1 hsep1 (hbound x.data (hx.2.2.2 ' ' (by decide)))
    have hmidne : x.data ++ sep.data ≠ [] := by simp [hx.1]
    have hjoin : pyJoinSep sep (x :: y :: t) = x ++ sep ++ pyJoinSep sep (y :: t) := rfl
    refine ⟨?_, ?_, ?_, ?_⟩
    · rw [hjoin, strDataAppend, strDataAppend]
      apply noBad_append _ _ hmid ihBad
      apply boundary_snd
      intro c hc
      rw [ihHead y rfl] at hc
      exact fun hmem => hy.2.2.1 c hmem hc
    · intro z hz
      simp only [List.head?_cons, Option.some.injEq] at hz
      subst hz
      rw [hjoin, strDataAppend, strDataAppend, head?_append_left _ _ hmidne,
        head?_append_left _ _ hx.1]
    · intro z hz
      rw [List.getLast?_cons_cons] at hz
      rw [hjoin, strDataAppend, strDataAppend, List.getLast?_append_of_ne_nil _ ihNe]
      exact ihLast z hz
    · rw [hjoin, strDataAppend, strDataAppend]
      intro hcontra
      exact ihNe (List.append_eq_nil.mp hcontra).2

theorem joinSep_goodPart (sep : String) (hsep1 : NoBadL sep.data) (hsep2 : sep.data ≠ [])
    (hbound : ∀ (x : List Char), x.getLast? ≠ some ' ' →
      ∀ pr ∈ badPairs, ¬(x.getLast? = some pr.1 ∧ sep.data.head? = some pr.2))
    (l : List String) (hne : l ≠ []) (hall : ∀ x ∈ l, GoodPart x) :
    GoodPart (pyJoinSep sep l) := by
  obtain ⟨hBad, hHead, hLast, hNe⟩ := joinSep_good sep hsep1 hsep2 hbound l hne hall
  cases l with
  | nil => exact absurd rfl hne
  | cons x rest =>
    obtain ⟨z, hz⟩ := exists_getLast? (x :: rest) (by simp)
    refine ⟨hNe, hBad, ?_, ?_⟩
    · intro c hc hh
      rw [hHead x rfl] at hh
      exact (hall x (by simp)).2.2.1 c hc hh
    · intro c hc hh
      rw [hLast z hz] at hh
      exact (hall z (mem_of_getLast?_eq hz)).2.2.2 c hc hh

/-! ### `replace` is the identity without occurrences -/

theorem pyReplaceAux_id (pat rep : List Char) :
    ∀ (fuel : Nat) (s : List Char), ¬ occursL pat s → pyReplaceAux pat rep fuel s = s := by
  intro fuel
  induction fuel with
  | zero => intro s _; cases s <;> rfl
  | succ n ih =>
    intro s h
    cases s with
    | nil => rfl
    | cons c rest =>
      have hp : ¬(pat.isPrefixOf (c :: rest) = true) := by
        intro hb
        rcases (isPrefixOf_eq_true_iff _ _).mp hb with ⟨r, hr⟩
        exact h ⟨[], r, by simp [hr]⟩
      have hr : ¬ occursL pat rest := by
        rintro ⟨p, q, hq⟩
        exact h ⟨c :: p, q, by simp [hq]⟩
      simp only [pyReplaceAux]
      rw [if_neg hp, ih rest hr]

theorem pyReplace_id (s pat rep : String) (h : ¬ occursL pat.data s.data) :
    pyReplace s pat rep = s := by
  unfold pyReplace
  by_cases hp : pat.data.isEmpty
  · rw [if_pos hp]
  · rw [if_neg hp]
    calc (⟨pyReplaceAux pat.data rep.data s.data.length s.data⟩ : String)
        = ⟨s.data⟩ := by rw [pyReplaceAux_id pat.data rep.data s.data.length s.data h]
      _ = s := strEta s

/-! ### The author string is a good part -/

theorem formattedAuthorsList_good (authors : List Author)
    (h : ∀ a ∈ authors, CleanAuthor a) :
    ∀ x ∈ formattedAuthorsList authors false, GoodPart x := by
  intro x hx
  unfold formattedAuthorsList at hx
  rcases List.mem_filterMap.mp hx with ⟨a, hmem, ha⟩
  have hra := resolveAuthor_clean a (h a hmem)
  by_cases h1 : (resolveAuthor a).1.data.isEmpty
  · simp [h1] at ha
  · simp only [h1, Bool.false_eq_true, if_false] at ha
    have hlastc : CleanStr (resolveAuthor a).1 := by
      rcases hra.1 with hz | hc
      · exfalso; rw [hz] at h1; simp at h1
      · exact hc
    have hcoreU : GoodCore (pyUpper (resolveAuthor a).1) :=
      cleanStr_goodCore _ (pyUpper_clean _ hlastc)
    by_cases h2 : (resolveAuthor a).2.data.isEmpty
    · simp only [h2, Bool.not_true, Bool.false_eq_true, if_false] at ha
      rw [← Option.some.inj ha]
      exact goodPart_core_const _ "." hcoreU (by decide) (by decide) (by decide)
    · simp only [h2, Bool.not_false, if_true] at ha
      have hfirst : CleanStr (resolveAuthor a).2 := by
        rcases hra.2 with hz | hc
        · exfalso; rw [hz] at h2; simp at h2
        · exact hc
      by_cases h3 : (pyLen (resolveAuthor a).2 = 1
          || (pyLen (resolveAuthor a).2 = 2 && pyEndsWith (resolveAuthor a).2 ".")) = true
      · rw [if_pos h3] at ha
        rw [← Option.some.inj ha]
        have hnodot : ¬ occursL ("." : String).data (pyUpper (resolveAuthor a).2).data := by
          intro hocc
          have hmem' : '.' ∈ (pyUpper (resolveAuthor a).2).data :=
            (occursL_single_iff '.' _).mp hocc
          exact absurd ((pyUpper_clean _ hfirst).2.1 '.' hmem') (by decide)
        rw [pyReplace_id _ _ _ hnodot]
        exact goodPart_core_const _ "."
          (goodCore_core_sep_clean _ ", " _ hcoreU (pyUpper_clean _ hfirst) (by decide))
          (by decide) (by decide) (by decide)
      · rw [if_neg h3] at ha
        rw [← Option.some.inj ha]
        exact goodPart_core_const _ "."
          (goodCore_core_sep_clean _ ", " _ hcoreU hfirst (by decide))
          (by decide) (by decide) (by decide)

theorem format_authors_goodPart (authors : List Author)
    (h : ∀ a ∈ authors, CleanAuthor a)
    (hne : format_authors_abnt authors false ≠ "") :
    GoodPart (format_authors_abnt authors false) := by
  unfold format_authors_abnt at hne ⊢
  by_cases h0 : authors.isEmpty
  · simp [h0] at hne
  · simp only [h0, Bool.false_eq_true, if_false] at hne ⊢
    by_cases h1 : (formattedAuthorsList authors false).isEmpty
    · simp [h1] at hne
    · simp only [h1, Bool.false_eq_true, if_false] at hne ⊢
      exact joinSep_goodPart "; " (by decide) (by decide)
        (fun x _ => sep_boundary_semicolon x)
        _ (fun hz => by rw [hz] at h1; simp at h1)
        (formattedAuthorsList_good authors h)

/-! ### Every segment of a clean bibliography entry is a good part -/

theorem strAppend_assoc (a b c : String) : a ++ b ++ c = a ++ (b ++ c) :=
  strExt (by rw [strDataAppend, strDataAppend, strDataAppend, strDataAppend,
    List.append_assoc])

theorem strAppend_empty (a : String) : a ++ "" = a :=
  strExt (by rw [strDataAppend]; simp)

theorem cleanOpt_truthy (o : Option String) (hc : CleanOpt o) (ht : truthy o = true) :
    CleanStr (o.getD "") := by
  cases o with
  | none => simp [truthy] at ht
  | some s => exact hc

theorem cleanOpt_getD_ne (o : Option String) (hc : CleanOpt o)
    (hne : ¬(o.getD "").data.isEmpty = true) : CleanStr (o.getD "") := by
  cases o with
  | none => simp at hne
  | some s => exact hc

theorem optBase_core (o : Option String) (d : String) (hc : CleanOpt o)
    (hd : GoodCore d) : GoodCore (o.getD d) := by
  cases o with
  | none => exact hd
  | some s => exact cleanStr_goodCore s hc

theorem entryParts_good (item : Item) (h : CleanItem item) :
    ∀ p ∈ (entryParts item).1, GoodPart p := by
  intro p hp
  unfold entryParts at hp
  by_cases b1 : (!(format_authors_abnt item.authors false).data.isEmpty) = true
  · rw [if_pos b1] at hp
    simp only [List.mem_singleton] at hp
    subst hp
    apply format_authors_goodPart item.authors h.2.2.2.2.2.2.2.2.2.2.2.2.2.2.2.2.1
    intro hz
    rw [hz] at b1
    simp at b1
  · rw [if_neg b1] at hp
    by_cases b2 : (truthy item.publisher && item.authors.isEmpty) = true
    · rw [if_pos b2] at hp
      simp only [List.mem_singleton] at hp
      subst hp
      have hps : CleanStr (item.publisher.getD "") :=
        cleanOpt_truthy _ h.2.2.1 (Bool.and_eq_true .. ▸ b2).1
      exact goodPart_core_const _ "." (cleanStr_goodCore _ (pyUpper_clean _ hps))
        (by decide) (by decide) (by decide)
    · rw [if_neg b2] at hp
      have htitle : truthy item.title = true → GoodPart (pyUpper (item.title.getD "") ++ ".") := by
        intro ht
        exact goodPart_core_const _ "."
          (cleanStr_goodCore _ (pyUpper_clean _ (cleanOpt_truthy _ h.1 ht)))
          (by decide) (by decide) (by decide)
      by_cases b3 : (decide (item.itemType = some "webpage") && truthy item.title) = true
      · rw [if_pos b3] at hp
        simp only [List.mem_singleton] at hp
        subst hp
        exact htitle (Bool.and_eq_true .. ▸ b3).2
      · rw [if_neg b3] at hp
        by_cases b4 : truthy item.title = true
        · rw [if_pos b4] at hp
          simp only [List.mem_singleton] at hp
          subst hp
          exact htitle b4
        · rw [if_neg b4] at hp
          simp only [List.mem_singleton] at hp
          subst hp
          decide

theorem titleBase_core (o : Option String) (hc : CleanOpt o) :
    GoodCore (o.getD "[S.T.]") :=
  optBase_core o "[S.T.]" hc (by decide)

theorem titleParts_good (item : Item) (flag : Bool) (hc1 : CleanOpt item.title)
    (hc2 : CleanOpt item.subtitle) : ∀ p ∈ titleParts item flag, GoodPart p := by
  intro p hp
  unfold titleParts at hp
  cases flag with
  | true => simp at hp
  | false =>
    simp only [Bool.false_eq_true, if_false] at hp
    have hbase : GoodCore (item.title.getD "[S.T.]") := titleBase_core item.title hc1
    have hfull : ∀ (title : String), GoodCore title →
        p ∈ (if item.itemType.getD "document" = "journalArticle" then [title ++ "."]
             else if item.itemType.getD "document" = "book" then ["**" ++ title ++ "**."]
             else [title ++ "."]) → GoodPart p := by
      intro title hcore hmem
      by_cases h1 : item.itemType.getD "document" = "journalArticle"
      · rw [if_pos h1] at hmem
        simp only [List.mem_singleton] at hmem
        subst hmem
        exact goodPart_core_const _ "." hcore (by decide) (by decide) (by decide)
      · rw [if_neg h1] at hmem
        by_cases h2 : item.itemType.getD "document" = "book"
        · rw [if_pos h2] at hmem
          simp only [List.mem_singleton] at hmem
          subst hmem
          exact goodPart_core_const _ "**."
            (goodCore_const_core "**" _ hcore (by decide) (by decide) (by decide)
              (by decide))
            (by decide) (by decide) (by decide)
        · rw [if_neg h2] at hmem
          simp only [List.mem_singleton] at hmem
          subst hmem
          exact goodPart_core_const _ "." hcore (by decide) (by decide) (by decide)
    by_cases hs : (item.subtitle.getD "").data.isEmpty
    · simp only [hs, Bool.not_true, Bool.false_eq_true, if_false] at hp
      exact hfull _ hbase hp
    · simp only [hs, Bool.not_false, if_true] at hp
      have hsub : CleanStr (item.subtitle.getD "") := cleanOpt_getD_ne _ hc2 hs
      exact hfull _ (goodCore_core_sep_clean _ ": " _ hbase hsub (by decide)) hp

theorem journalParts_good (item : Item) (h : CleanItem item) :
    ∀ p ∈ journalParts item, GoodPart p := by
  intro p hp
  unfold journalParts at hp
  by_cases hj : item.itemType = some "journalArticle"
  · rw [if_pos hj] at hp
    simp only [List.mem_append, List.mem_singleton] at hp
    rcases hp with ((((hp | hp) | hp) | hp) | hp)
    · subst hp
      exact goodPart_core_const _ "**"
        (goodCore_const_core "**" _ (optBase_core _ "[S.J.]" h.2.2.2.2.1 (by decide))
          (by decide) (by decide) (by decide) (by decide))
        (by decide) (by decide) (by decide)
    · by_cases ht : truthy item.journalPlace = true
      · rw [if_pos ht] at hp
        simp only [List.mem_singleton] at hp
        subst hp
        exact goodPart_core_const _ ","
          (cleanStr_goodCore _ (cleanOpt_truthy _ h.2.2.2.2.2.1 ht))
          (by decide) (by decide) (by decide)
      · rw [if_neg ht] at hp
        simp at hp
    · by_cases ht : truthy item.volume = true
      · rw [if_pos ht] at hp
        simp only [List.mem_singleton] at hp
        subst hp
        exact goodPart_core_const _ ","
          (goodCore_label "v. " _ (by decide) (by decide) (by decide)
            (cleanOpt_truthy _ h.2.2.2.2.2.2.1 ht))
          (by decide) (by decide) (by decide)
      · rw [if_neg ht] at hp
        simp at hp
    · by_cases ht : truthy item.issue = true
      · rw [if_pos ht] at hp
        simp only [List.mem_singleton] at hp
        subst hp
        exact goodPart_core_const _ ","
          (goodCore_label "n. " _ (by decide) (by decide) (by decide)
            (cleanOpt_truthy _ h.2.2.2.2.2.2.2.1 ht))
          (by decide) (by decide) (by decide)
      · rw [if_neg ht] at hp
        simp at hp
    · by_cases ht : truthy item.pages = true
      · rw [if_pos ht] at hp
        have hpc : CleanStr (item.pages.getD "") :=
          cleanOpt_truthy _ h.2.2.2.2.2.2.2.2.1 ht
        by_cases hpre : (!pyStartsWith (item.pages.getD "") "p."
            && !pyStartsWith (item.pages.getD "") "f.") = true
        · rw [if_pos hpre] at hp
          simp only [List.mem_singleton] at hp
          subst hp
          exact goodPart_core_const _ ","
            (goodCore_label "p. " _ (by decide) (by decide) (by decide) hpc)
            (by decide) (by decide) (by decide)
        · exfalso
          simp only [Bool.and_eq_true, Bool.not_eq_true'] at hpre
          rcases Decidable.not_and_iff_or_not .. |>.mp hpre with hb | hb
          · have hb' : pyStartsWith (item.pages.getD "") "p." = true := by
              cases hq : pyStartsWith (item.pages.getD "") "p."
              · exact absurd hq hb
              · rfl
            exact clean_not_startswith _ 'p' hpc hb'
          · have hb' : pyStartsWith (item.pages.getD "") "f." = true := by
              cases hq : pyStartsWith (item.pages.getD "") "f."
              · exact absurd hq hb
              · rfl
            exact clean_not_startswith _ 'f' hpc hb'
      · rw [if_neg ht] at hp
        simp at hp
  · rw [if_neg hj] at hp
    simp at hp

theorem editionParts_good (item : Item) (h : CleanItem item) :
    ∀ p ∈ editionParts item, GoodPart p := by
  intro p hp
  unfold editionParts at hp
  by_cases hc : (truthy item.edition && decide (item.itemType = some "book")) = true
  · rw [if_pos hc] at hp
    have hec : CleanStr (item.edition.getD "") :=
      cleanOpt_truthy _ h.2.2.2.2.2.2.2.2.2.1 (Bool.and_eq_true .. ▸ hc).1
    by_cases hint : pyIntOk (item.edition.getD "") = true
    · rw [if_pos hint] at hp
      simp only [List.mem_singleton] at hp
      subst hp
      exact goodPart_core_const _ ". ed." (cleanStr_goodCore _ hec)
        (by decide) (by decide) (by decide)
    · rw [if_neg hint] at hp
      simp only [List.mem_singleton] at hp
      subst hp
      exact goodPart_core_const _ "." (cleanStr_goodCore _ hec)
        (by decide) (by decide) (by decide)
  · rw [if_neg hc] at hp
    simp at hp

theorem placeParts_good (item : Item) (flag : Bool) (h : CleanItem item) :
    ∀ p ∈ placeParts item flag, GoodPart p := by
  intro p hp
  unfold placeParts at hp
  by_cases hc : ((decide (item.itemType = some "book") || decide (item.itemType = some "report"))
      && (!flag || !item.authors.isEmpty)) = true
  · rw [if_pos hc] at hp
    simp only [List.mem_singleton] at hp
    subst hp
    exact goodPart_core_const _ ":"
      (optBase_core _ "[S.l.]" h.2.2.2.1 (by decide))
      (by decide) (by decide) (by decide)
  · rw [if_neg hc] at hp
    simp at hp

theorem pubParts_good (item : Item) (flag : Bool) (h : CleanItem item) :
    ∀ p ∈ pubParts item flag, GoodPart p := by
  intro p hp
  unfold pubParts at hp
  by_cases hc : ((decide (item.itemType = some "book") || decide (item.itemType = some "report"))
      && (!flag || !item.authors.isEmpty)) = true
  · rw [if_pos hc] at hp
    simp only [List.mem_singleton] at hp
    subst hp
    exact goodPart_core_const _ ","
      (optBase_core _ "[s.n.]" h.2.2.1 (by decide))
      (by decide) (by decide) (by decide)
  · rw [if_neg hc] at hp
    simp at hp

theorem seriesParts_good (item : Item) (h : CleanItem item) :
    ∀ p ∈ seriesParts item, GoodPart p := by
  intro p hp
  unfold seriesParts at hp
  by_cases hc : truthy item.series = true
  · rw [if_pos hc] at hp
    have hsc : CleanStr (item.series.getD "") :=
      cleanOpt_truthy _ h.2.2.2.2.2.2.2.2.2.2.1 hc
    by_cases hn : truthy item.seriesNumber = true
    · rw [if_pos hn] at hp
      simp only [List.mem_singleton] at hp
      subst hp
      have hnc : CleanStr (item.seriesNumber.getD "") :=
        cleanOpt_truthy _ h.2.2.2.2.2.2.2.2.2.2.2.1 hn
      rw [show item.series.getD "" ++ (", " ++ item.seriesNumber.getD "")
          = item.series.getD "" ++ ", " ++ item.seriesNumber.getD "" from
          (strAppend_assoc ..).symm]
      exact goodPart_core_const _ ")."
        (goodCore_const_core "(" _
          (goodCore_core_sep_clean _ ", " _ (cleanStr_goodCore _ hsc) hnc (by decide))
          (by decide) (by decide) (by decide) (by decide))
        (by decide) (by decide) (by decide)
    · rw [if_neg hn] at hp
      simp only [List.mem_singleton] at hp
      subst hp
      rw [strAppend_empty]
      exact goodPart_core_const _ ")."
        (goodCore_const_core "(" _ (cleanStr_goodCore _ hsc)
          (by decide) (by decide) (by decide) (by decide))
        (by decide) (by decide) (by decide)
  · rw [if_neg hc] at hp
    simp at hp

theorem urlParts_good (item : Item) (h : CleanItem item) :
    ∀ p ∈ urlParts item, GoodPart p := by
  intro p hp
  unfold urlParts at hp
  by_cases hc : truthy item.url = true
  · rw [if_pos hc] at hp
    have huc : CleanStr (item.url.getD "") :=
      cleanOpt_truthy _ h.2.2.2.2.2.2.2.2.2.2.2.2.1 hc
    rcases List.mem_append.mp hp with h1 | h1
    · simp only [List.mem_singleton] at h1
      subst h1
      exact goodPart_core_const _ ">."
        (goodCore_label "Disponível em: <" _ (by decide) (by decide) (by decide) huc)
        (by decide) (by decide) (by decide)
    · by_cases ha : (!(item.accessDate.getD "").data.isEmpty) = true
      · rw [if_pos ha] at h1
        simp only [List.mem_singleton] at h1
        subst h1
        have hac : CleanStr (item.accessDate.getD "") :=
          cleanOpt_getD_ne _ h.2.2.2.2.2.2.2.2.2.2.2.2.2.1 (by
            intro hz
            rw [hz] at ha
            simp at ha)
        exact goodPart_core_const _ "."
          (goodCore_label "Acesso em: " _ (by decide) (by decide) (by decide) hac)
          (by decide) (by decide) (by decide)
      · rw [if_neg ha] at h1
        simp only [List.mem_singleton] at h1
        subst h1
        decide
  · rw [if_neg hc] at hp
    simp at hp

theorem doiParts_good (item : Item) (h : CleanItem item) :
    ∀ p ∈ doiParts item, GoodPart p := by
  intro p hp
  unfold doiParts at hp
  by_cases hc : truthy item.doi = true
  · rw [if_pos hc] at hp
    by_cases hskip : (truthy item.url && pyIn (item.doi.getD "") (item.url.getD "")) = true
    · rw [if_pos hskip] at hp
      simp at hp
    · rw [if_neg hskip] at hp
      simp only [List.mem_singleton] at hp
      subst hp
      have hdc : CleanStr (item.doi.getD "") :=
        cleanOpt_truthy _ h.2.2.2.2.2.2.2.2.2.2.2.2.2.2.1 hc
      exact goodPart_core_const _ "."
        (goodCore_label "DOI: " _ (by decide) (by decide) (by decide) hdc)
        (by decide) (by decide) (by decide)
  · rw [if_neg hc] at hp
    simp at hp

theorem downloadParts_good (item : Item) (inc : Bool) (h : CleanItem item) :
    ∀ p ∈ downloadParts item inc, GoodPart p := by
  intro p hp
  unfold downloadParts at hp
  by_cases hc : (inc && truthy item.local_pdf_path) = true
  · rw [if_pos hc] at hp
    simp only [List.mem_singleton] at hp
    subst hp
    have hpc : CleanStr (item.local_pdf_path.getD "") :=
      cleanOpt_truthy _ h.2.2.2.2.2.2.2.2.2.2.2.2.2.2.2.1
        (Bool.and_eq_true .. ▸ hc).2
    exact goodPart_core_const _ "]"
      (goodCore_label "[Download Local: " _ (by decide) (by decide) (by decide) hpc)
      (by decide) (by decide) (by decide)
  · rw [if_neg hc] at hp
    simp at hp

theorem preYearParts_good (item : Item) (h : CleanItem item) :
    ∀ p ∈ preYearParts item, GoodPart p := by
  intro p hp
  unfold preYearParts at hp
  simp only [List.mem_append] at hp
  rcases hp with ((((hp | hp) | hp) | hp) | hp) | hp
  · exact entryParts_good item h p hp
  · exact titleParts_good item _ h.1 h.2.1 p hp
  · exact journalParts_good item h p hp
  · exact editionParts_good item h p hp
  · exact placeParts_good item _ h p hp
  · exact pubParts_good item _ h p hp

theorem postYearParts_good (item : Item) (inc : Bool) (h : CleanItem item) :
    ∀ p ∈ postYearParts item inc, GoodPart p := by
  intro p hp
  unfold postYearParts at hp
  simp only [List.mem_append] at hp
  rcases hp with ((hp | hp) | hp) | hp
  · exact seriesParts_good item h p hp
  · exact urlParts_good item h p hp
  · exact doiParts_good item h p hp
  · exact downloadParts_good item inc h p hp

theorem mem_of_mem_dropLast {α : Type} : ∀ {l : List α} {x : α}, x ∈ l.dropLast → x ∈ l
  | [], _, h => by simp at h
  | [a], _, h => by simp at h
  | a :: b :: t, x, h => by
    rw [show (a :: b :: t).dropLast = a :: (b :: t).dropLast from rfl] at h
    rcases List.mem_cons.mp h with h1 | h2
    · rw [h1]; simp
    · exact List.mem_cons_of_mem _ (mem_of_mem_dropLast h2)

theorem yearPart_good (item : Item) (h : CleanItem item) :
    GoodPart ((get_year_from_date item.date).getD "s.d." ++ ".") := by
  have hsome : (get_year_from_date item.date).isSome = true :=
    h.2.2.2.2.2.2.2.2.2.2.2.2.2.2.2.2.2
  rcases Option.isSome_iff_exists.mp hsome with ⟨y, hy⟩
  rw [hy]
  exact goodPart_core_const _ "." (cleanStr_goodCore _ (year_clean item.date y hy))
    (by decide) (by decide) (by decide)

/-- Replacing a trailing comma of a good part with a period yields a good
part: the `".,"` and `",,"` members of `badPairs` rule out a bad pair at
the splice point. -/
theorem mutatedPart_good (q : String) (hq : GoodPart q)
    (hend : pyEndsWith q "," = true) : GoodPart (pyDropLastChar q ++ ".") := by
  have hql : q.data.getLast? = some ',' := (pyEndsWith_single_iff q ',').mp hend
  have hdecomp : q.data.dropLast ++ [','] = q.data :=
    List.dropLast_append_getLast? ',' (Option.mem_def.mpr hql)
  obtain ⟨g1, g2, g3, g4⟩ := hq
  have hdne : q.data.dropLast ≠ [] := by
    intro hz
    have hq1 : q.data = [','] := by rw [← hdecomp, hz]; rfl
    exact g3 ',' (by decide) (by rw [hq1]; rfl)
  have key : ∀ pr ∈ badPairs, pr.2 = '.' → (pr.1, ',') ∈ badPairs := by decide
  refine ⟨?_, ?_, ?_, ?_⟩
  · rw [strDataAppend]
    simp
  · rw [strDataAppend]
    apply noBad_append
    · intro pr hpr hocc
      apply g2 pr hpr
      rw [← hdecomp]
      exact occursL_append_left _ _ _ hocc
    · decide
    · rintro pr hpr ⟨h1, h2⟩
      have h2' : pr.2 = '.' := (Option.some.inj h2).symm
      have hd2 : q.data.dropLast.dropLast ++ [pr.1] = q.data.dropLast :=
        List.dropLast_append_getLast? pr.1 (Option.mem_def.mpr h1)
      have hqe : q.data = (q.data.dropLast.dropLast ++ [pr.1]) ++ [','] := by
        rw [hd2, hdecomp]
      have hocc : occursL [pr.1, ','] q.data :=
        ⟨q.data.dropLast.dropLast, [], hqe.trans (by simp)⟩
      exact g2 (pr.1, ',') (key pr hpr h2') hocc
  · intro c hc hh
    rw [strDataAppend, show (pyDropLastChar q).data = q.data.dropLast from rfl,
      head?_append_left _ _ hdne] at hh
    have hhead : q.data.head? = q.data.dropLast.head? := by
      conv_lhs => rw [← hdecomp]
      exact head?_append_left _ _ hdne
    rw [← hhead] at hh
    exact g3 c hc hh
  · intro c hc hco
    rw [strDataAppend, List.getLast?_append_of_ne_nil _
      (by decide : ("." : String).data ≠ [])] at hco
    have hcd : c = '.' := (Option.some.inj hco).symm
    subst hcd
    exact absurd hc (by decide)

/-- The year step preserves goodness of every part. -/
theorem yearStep_good (parts : List String) (y : String)
    (hall : ∀ p ∈ parts, GoodPart p) (hy : GoodPart (y ++ ".")) :
    ∀ p ∈ yearStep parts y, GoodPart p := by
  intro p hp
  unfold yearStep at hp
  by_cases hany : ((lastTwo parts).any fun q => pyIn y q) = true
  · rw [if_pos hany] at hp
    by_cases hend : pyEndsWith (parts.getLastD "") "," = true
    · rw [if_pos hend] at hp
      rcases List.mem_append.mp hp with h | h
      · exact hall p (mem_of_mem_dropLast h)
      · simp only [List.mem_singleton] at h
        subst h
        have hpne : parts ≠ [] := by
          intro hz
          rw [hz] at hend
          exact absurd hend (by decide)
        obtain ⟨q, hq⟩ := exists_getLast? parts hpne
        have hqd : parts.getLastD "" = q := by
          rw [List.getLastD_eq_getLast?, hq]
          rfl
        rw [hqd] at hend ⊢
        exact mutatedPart_good q (hall q (mem_of_getLast?_eq hq)) hend
    · rw [if_neg hend] at hp
      exact hall p hp
  · rw [if_neg hany] at hp
    rcases List.mem_append.mp hp with h | h
    · exact hall p h
    · simp only [List.mem_singleton] at h
      subst h
      exact hy

/-- Every part of a clean item's bibliography parts list is good. -/
theorem bibliographyParts_good (item : Item) (inc : Bool) (h : CleanItem item) :
    ∀ p ∈ bibliographyParts item inc, GoodPart p := by
  intro p hp
  unfold bibliographyParts at hp
  rcases List.mem_append.mp hp with h1 | h1
  · exact yearStep_good _ _ (preYearParts_good item h) (yearPart_good item h) p h1
  · exact postYearParts_good item inc h p h1

/-- Every part emitted after the year step ends in a period or a closing
bracket. -/
theorem postYearParts_lastchar (item : Item) (inc : Bool) :
    ∀ p ∈ postYearParts item inc,
      p.data.getLast? = some '.' ∨ p.data.getLast? = some ']' := by
  intro p hp
  unfold postYearParts at hp
  simp only [List.mem_append] at hp
  rcases hp with ((hp | hp) | hp) | hp
  · unfold seriesParts at hp
    by_cases hc : truthy item.series = true
    · rw [if_pos hc] at hp
      by_cases hn : truthy item.seriesNumber = true <;>
        [rw [if_pos hn] at hp; rw [if_neg hn] at hp] <;>
        simp only [List.mem_singleton] at hp <;> subst hp <;> left <;>
        · rw [strDataAppend,
            List.getLast?_append_of_ne_nil _ (by decide : (")." : String).data ≠ [])]
          decide
    · rw [if_neg hc] at hp
      simp at hp
  · unfold urlParts at hp
    by_cases hc : truthy item.url = true
    · rw [if_pos hc] at hp
      rcases List.mem_append.mp hp with h1 | h1
      · simp only [List.mem_singleton] at h1
        subst h1
        left
        rw [strDataAppend,
          List.getLast?_append_of_ne_nil _ (by decide : (">." : String).data ≠ [])]
        decide
      · by_cases ha : (!(item.accessDate.getD "").data.isEmpty) = true
        · rw [if_pos ha] at h1
          simp only [List.mem_singleton] at h1
          subst h1
          left
          exact concat_getLast_dot _
        · rw [if_neg ha] at h1
          simp only [List.mem_singleton] at h1
          subst h1
          left
          decide
    · rw [if_neg hc] at hp
      simp at hp
  · unfold doiParts at hp
    by_cases hc : truthy item.doi = true
    · rw [if_pos hc] at hp
      by_cases hskip : (truthy item.url && pyIn (item.doi.getD "") (item.url.getD "")) = true
      · rw [if_pos hskip] at hp
        simp at hp
      · rw [if_neg hskip] at hp
        simp only [List.mem_singleton] at hp
        subst hp
        left
        exact concat_getLast_dot _
    · rw [if_neg hc] at hp
      simp at hp
  · unfold downloadParts at hp
    by_cases hc : (inc && truthy item.local_pdf_path) = true
    · rw [if_pos hc] at hp
      simp only [List.mem_singleton] at hp
      subst hp
      right
      rw [strDataAppend,
        List.getLast?_append_of_ne_nil _ (by decide : ("]" : String).data ≠ [])]
      decide
    · rw [if_neg hc] at hp
      simp at hp

/-- The year step never leaves a part ending in a comma at the very end of
the list. -/
theorem yearStep_last_ne_comma (parts : List String) (y : String) :
    ∀ p, (yearStep parts y).getLast? = some p → p.data.getLast? ≠ some ',' := by
  intro p hp
  unfold yearStep at hp
  by_cases hany : ((lastTwo parts).any fun q => pyIn y q) = true
  · rw [if_pos hany] at hp
    by_cases hend : pyEndsWith (parts.getLastD "") "," = true
    · rw [if_pos hend, List.getLast?_concat] at hp
      rw [← Option.some.inj hp, concat_getLast_dot]
      decide
    · rw [if_neg hend] at hp
      have hqd : parts.getLastD "" = p := by
        rw [List.getLastD_eq_getLast?, hp]
        rfl
      intro hlast
      apply hend
      rw [hqd]
      exact (pyEndsWith_single_iff p ',').mpr hlast
  · rw [if_neg hany, List.getLast?_concat] at hp
    rw [← Option.some.inj hp, concat_getLast_dot]
    decide

/-- The last part of a bibliography entry never ends in a comma. -/
theorem bibliographyParts_last_ne_comma (item : Item) (inc : Bool) :
    ∀ p, (bibliographyParts item inc).getLast? = some p →
      p.data.getLast? ≠ some ',' := by
  intro p hp
  unfold bibliographyParts at hp
  by_cases hpost : postYearParts item inc = []
  · rw [hpost, List.append_nil] at hp
    exact yearStep_last_ne_comma _ _ p hp
  · rw [List.getLast?_append_of_ne_nil _ hpost] at hp
    rcases postYearParts_lastchar item inc p (mem_of_getLast?_eq hp) with hl | hl <;>
      rw [hl] <;> decide

theorem preYearParts_ne_nil (item : Item) : preYearParts item ≠ [] := by
  rcases entryParts_shape item with ⟨e, flag, hef, _⟩
  unfold preYearParts
  rw [hef]
  simp

theorem bibliographyParts_ne_nil (item : Item) (inc : Bool) :
    bibliographyParts item inc ≠ [] := by
  unfold bibliographyParts
  intro hz
  exact yearStep_ne_nil _ _ (preYearParts_ne_nil item) (List.append_eq_nil.mp hz).1

theorem noBad_of_suffix (l : List Char) {m : List Char} (h : m <:+ l) (hl : NoBadL l) :
    NoBadL m := by
  obtain ⟨u, hu⟩ := h
  intro pr hpr hocc
  exact hl pr hpr (hu ▸ occursL_append_right _ u m hocc)

theorem noBad_dropLast (l : List Char) (h : NoBadL l) : NoBadL l.dropLast := by
  intro pr hpr hocc
  apply h pr hpr
  cases hl : l.getLast? with
  | none =>
    rw [List.getLast?_eq_none_iff] at hl
    subst hl
    exact absurd hocc (occurs2_nil _ _)
  | some a =>
    have hd := List.dropLast_append_getLast? a (Option.mem_def.mpr hl)
    rw [← hd]
    exact occursL_append_left _ _ _ hocc

/-- When the string ends in a non-whitespace character, `strip` only
removes a prefix. -/
theorem strip_of_last (s : String) (c : Char) (hc : s.data.getLast? = some c)
    (hsp : isPySpace c = false) :
    (pyStrip s).data = s.data.dropWhile isPySpace := by
  show ((s.data.dropWhile isPySpace).reverse.dropWhile isPySpace).reverse = _
  have hmne : s.data.dropWhile isPySpace ≠ [] := by
    intro hz
    have hcm : c ∈ s.data := mem_of_getLast?_eq hc
    have := List.dropWhile_eq_nil_iff.mp hz c hcm
    rw [hsp] at this
    exact absurd this (by decide)
  have hml : (s.data.dropWhile isPySpace).getLast? = some c := by
    obtain ⟨u, hu⟩ := @List.dropWhile_suffix _ s.data isPySpace
    calc (s.data.dropWhile isPySpace).getLast?
        = (u ++ s.data.dropWhile isPySpace).getLast? :=
          (List.getLast?_append_of_ne_nil _ hmne).symm
      _ = s.data.getLast? := by rw [hu]
      _ = some c := hc
  have hrev : (s.data.dropWhile isPySpace).reverse.head? = some c := by
    rw [List.head?_reverse]
    exact hml
  cases hrd : (s.data.dropWhile isPySpace).reverse with
  | nil =>
    rw [hrd] at hrev
    simp at hrev
  | cons d t =>
    have hdc : d = c := by
      rw [hrd] at hrev
      exact Option.some.inj hrev
    subst hdc
    rw [List.dropWhile_cons,
      if_neg (show ¬(isPySpace d = true) from by simp [hsp]),
      ← hrd, List.reverse_reverse]

/-- Stripping preserves the absence of forbidden pairs, given a
non-whitespace last character. -/
theorem strip_noBad (Z : String) (hZ : NoBadL Z.data) (c : Char)
    (hcl : Z.data.getLast? = some c) (hsp : isPySpace c = false) :
    NoBadL (pyStrip Z).data := by
  rw [strip_of_last Z c hcl hsp]
  exact noBad_of_suffix _ (List.dropWhile_suffix _) hZ

/-- A string ending in `z` decomposes as a prefix plus `z`. -/
theorem pyEndsWith_decomp (s z : String) (h : pyEndsWith s z = true) :
    ∃ w, s.data = w ++ z.data := by
  have h2 : z.data.reverse.isPrefixOf s.data.reverse = true := h
  obtain ⟨r, hr⟩ := (isPrefixOf_eq_true_iff _ _).mp h2
  refine ⟨r.reverse, ?_⟩
  have hrr := congrArg List.reverse hr
  rw [List.reverse_reverse, List.reverse_append, List.reverse_reverse] at hrr
  exact hrr

/-- The closing-bracket trim step keeps the entry free of forbidden pairs. -/
theorem finalTrim_noBad (Z : String) (hZ : NoBadL Z.data) (c : Char)
    (hcl : Z.data.getLast? = some c) (hsp : isPySpace c = false) :
    NoBadL (pyStrip
      (if pyEndsWith Z "]." || pyEndsWith Z ")." then pyDropLastChar Z else Z)).data := by
  by_cases hbr : (pyEndsWith Z "]." || pyEndsWith Z ").") = true
  · rw [if_pos hbr]
    have hdl : NoBadL (pyDropLastChar Z).data := noBad_dropLast Z.data hZ
    rcases Bool.or_eq_true .. ▸ hbr with hb | hb
    · obtain ⟨w, hw⟩ := pyEndsWith_decomp Z "]." hb
      have hlast' : (pyDropLastChar Z).data.getLast? = some ']' := by
        show Z.data.dropLast.getLast? = _
        rw [hw, show w ++ (("]." : String).data) = (w ++ [']']) ++ ['.'] from by simp,
          List.dropLast_concat, List.getLast?_concat]
      exact strip_noBad _ hdl ']' hlast' (by decide)
    · obtain ⟨w, hw⟩ := pyEndsWith_decomp Z ")." hb
      have hlast' : (pyDropLastChar Z).data.getLast? = some ')' := by
        show Z.data.dropLast.getLast? = _
        rw [hw, show w ++ ((")." : String).data) = (w ++ [')']) ++ ['.'] from by simp,
          List.dropLast_concat, List.getLast?_concat]
      exact strip_noBad _ hdl ')' hlast' (by decide)
  · rw [if_neg hbr]
    exact strip_noBad Z hZ c hcl hsp

/-- The normalization pass of `format_bibliography_entry` leaves no
forbidden adjacent pair when fed a nonempty list of good parts whose last
part does not end in a comma. -/
theorem normalizeEntry_noBad (parts : List String) (hne : parts ≠ [])
    (hall : ∀ p ∈ parts, GoodPart p)
    (hlastc : ∀ q, parts.getLast? = some q → q.data.getLast? ≠ some ',') :
    NoBadL (normalizeEntry parts).data := by
  have hfilter : parts.filter (fun p => !p.data.isEmpty) = parts := by
    apply List.filter_eq_self.mpr
    intro p hp
    cases hd : p.data with
    | nil => exact absurd hd (hall p hp).1
    | cons a t => simp [hd]
  obtain ⟨hBad, hHead, hLast, hNe⟩ :=
    joinSep_good " " (by decide) (by decide) (fun x hx => sep_boundary_space x hx)
      parts hne hall
  obtain ⟨q, hq⟩ := exists_getLast? parts hne
  have hqg := hall q (mem_of_getLast?_eq hq)
  obtain ⟨c0, hqc⟩ := exists_getLast? q.data hqg.1
  have hc0sp : isPySpace c0 = false := by
    have h1 := hqg.2.2.2 ' ' (by decide)
    have h2 := hqg.2.2.2 '\t' (by decide)
    have h3 := hqg.2.2.2 '\n' (by decide)
    have h4 := hqg.2.2.2 '\r' (by decide)
    rw [hqc] at h1 h2 h3 h4
    have e1 : c0 ≠ ' ' := fun hz => h1 (by rw [hz])
    have e2 : c0 ≠ '\t' := fun hz => h2 (by rw [hz])
    have e3 : c0 ≠ '\n' := fun hz => h3 (by rw [hz])
    have e4 : c0 ≠ '\r' := fun hz => h4 (by rw [hz])
    simp [isPySpace, e1, e2, e3, e4]
  have hc0comma : c0 ≠ ',' := by
    intro hz
    exact hlastc q hq (hz ▸ hqc)
  have hjlast : (pyJoinSep " " parts).data.getLast? = some c0 := by
    rw [hLast q hq]
    exact hqc
  have hs0last : (pyStrip (pyJoinSep " " parts)).data.getLast? = some c0 := by
    rw [strip_of_last _ c0 hjlast hc0sp]
    obtain ⟨u, hu⟩ := @List.dropWhile_suffix _ (pyJoinSep " " parts).data isPySpace
    have hmne : (pyJoinSep " " parts).data.dropWhile isPySpace ≠ [] := by
      intro hz
      have hcm : c0 ∈ (pyJoinSep " " parts).data := mem_of_getLast?_eq hjlast
      have := List.dropWhile_eq_nil_iff.mp hz c0 hcm
      rw [hc0sp] at this
      exact absurd this (by decide)
    calc ((pyJoinSep " " parts).data.dropWhile isPySpace).getLast?
        = (u ++ (pyJoinSep " " parts).data.dropWhile isPySpace).getLast? :=
          (List.getLast?_append_of_ne_nil _ hmne).symm
      _ = (pyJoinSep " " parts).data.getLast? := by rw [hu]
      _ = some c0 := hjlast
  have hs0bad : NoBadL (pyStrip (pyJoinSep " " parts)).data := by
    rw [strip_of_last _ c0 hjlast hc0sp]
    exact noBad_of_suffix _ (List.dropWhile_suffix _) hBad
  have r1 : pyReplace (pyStrip (pyJoinSep " " parts)) " ," ","
      = pyStrip (pyJoinSep " " parts) :=
    pyReplace_id _ _ _ (hs0bad (' ', ',') (by decide))
  have r2 : pyReplace (pyStrip (pyJoinSep " " parts)) " ." "."
      = pyStrip (pyJoinSep " " parts) :=
    pyReplace_id _ _ _ (hs0bad (' ', '.') (by decide))
  have r3 : pyReplace (pyStrip (pyJoinSep " " parts)) " :" ":"
      = pyStrip (pyJoinSep " " parts) :=
    pyReplace_id _ _ _ (hs0bad (' ', ':') (by decide))
  have r4 : pyReplace (pyStrip (pyJoinSep " " parts)) ",." "."
      = pyStrip (pyJoinSep " " parts) :=
    pyReplace_id _ _ _ (hs0bad (',', '.') (by decide))
  have r5 : pyReplace (pyStrip (pyJoinSep " " parts)) ".." "."
      = pyStrip (pyJoinSep " " parts) :=
    pyReplace_id _ _ _ (hs0bad ('.', '.') (by decide))
  have r6 : pyReplace (pyStrip (pyJoinSep " " parts)) ":," ":"
      = pyStrip (pyJoinSep " " parts) :=
    pyReplace_id _ _ _ (hs0bad (':', ',') (by decide))
  have r7 : pyReplace (pyStrip (pyJoinSep " " parts)) ";," ";"
      = pyStrip (pyJoinSep " " parts) :=
    pyReplace_id _ _ _ (hs0bad (';', ',') (by decide))
  have r8 : pyReplace (pyStrip (pyJoinSep " " parts)) "  " " "
      = pyStrip (pyJoinSep " " parts) :=
    pyReplace_id _ _ _ (hs0bad (' ', ' ') (by decide))
  unfold normalizeEntry
  rw [hfilter]
  set s0 : String := pyStrip (pyJoinSep " " parts) with hs0def
  simp only [r1, r2, r3, r4, r5, r6, r7, r8]
  by_cases hdot : (!(pyEndsWith s0 "." || pyEndsWith s0 "]" || pyEndsWith s0 ")"
      || pyEndsWith s0 "?" || pyEndsWith s0 "!")) = true
  · rw [if_pos hdot]
    have h5 : pyEndsWith s0 "." = false := by
      cases hpe : pyEndsWith s0 "." with
      | false => rfl
      | true =>
        rw [hpe] at hdot
        simp at hdot
    have hc0dot : c0 ≠ '.' := by
      intro hz
      have hcv : pyEndsWith s0 "." = pyEndsWith s0 ⟨['.']⟩ := rfl
      rw [hcv, (pyEndsWith_single_iff s0 '.').mpr (hz ▸ hs0last)] at h5
      exact absurd h5 (by decide)
    have hb9 : NoBadL (s0 ++ ".").data := by
      rw [strDataAppend]
      apply noBad_append _ _ hs0bad (by decide)
      rintro pr hpr ⟨h1, h2⟩
      have hp1 : pr.1 = c0 := by
        rw [hs0last] at h1
        exact (Option.some.inj h1).symm
      have hp2 : pr.2 = '.' := (Option.some.inj h2).symm
      have key2 : ∀ pr ∈ badPairs, pr.2 = '.' → pr.1 = ' ' ∨ pr.1 = ',' ∨ pr.1 = '.' := by
        decide
      rcases key2 pr hpr hp2 with hf | hf | hf
      · rw [hp1] at hf
        rw [hf] at hc0sp
        exact absurd hc0sp (by decide)
      · exact hc0comma (hp1 ▸ hf)
      · exact hc0dot (hp1 ▸ hf)
    exact finalTrim_noBad (s0 ++ ".") hb9 '.' (concat_getLast_dot s0) (by decide)
  · rw [if_neg hdot]
    exact finalTrim_noBad s0 hs0bad c0 hs0last hc0sp

/-- C5 (amended): for every item whose present string fields are clean
(nonempty; free of periods, commas, colons, semicolons and control
whitespace; no double or leading or trailing spaces; `name` fields
space-free) and whose date yields a 4-digit year, and for every value of
the download-link flag, the bibliography entry contains none of the
substrings `" ,"`, `" ."`, `".."`, `",."`. -/
theorem c5_amended_punctuation (item : Item) (inc : Bool) (h : CleanItem item) :
    ¬ OccursIn " ," (format_bibliography_entry item inc)
    ∧ ¬ OccursIn " ." (format_bibliography_entry item inc)
    ∧ ¬ OccursIn ".." (format_bibliography_entry item inc)
    ∧ ¬ OccursIn ",." (format_bibliography_entry item inc) := by
  have key : NoBadL (format_bibliography_entry item inc).data :=
    normalizeEntry_noBad (bibliographyParts item inc) (bibliographyParts_ne_nil item inc)
      (bibliographyParts_good item inc h) (bibliographyParts_last_ne_comma item inc)
  exact ⟨key (' ', ',') (by decide), key (' ', '.') (by decide),
    key ('.', '.') (by decide), key (',', '.') (by decide)⟩

/-- C5 (amended) witness: the clean book item satisfies the hypothesis and
its entry avoids all four substrings. -/
theorem c5_witness :
    CleanItem itemCleanBook
    ∧ (¬ OccursIn " ," (format_bibliography_entry itemCleanBook true)
       ∧ ¬ OccursIn " ." (format_bibliography_entry itemCleanBook true)
       ∧ ¬ OccursIn ".." (format_bibliography_entry itemCleanBook true)
       ∧ ¬ OccursIn ",." (format_bibliography_entry itemCleanBook true)) :=
  ⟨by decide, c5_amended_punctuation itemCleanBook true (by decide)⟩

end JurisCurador
